import Mathlib

/-!
A verification development for `common-tools-haonan`

Shallow embedding of
* `docker/container/container_process.go` (`fork`, `Run`, `sendInitCommand`),
* `docker/network/network.go` (`Dump`, `Remove`, `CreateNetwork`, `DeleteNetwork`, `Connect`),
* `docker/cmd.go` (`runCommand`),
* `leetcode/classic/slide_window/30_substring_with_concatenation_all.go` (`findSubstring`,
  `findSubstringV2`),
* `leetcode/classic/27_remove_duplicate2.go` (`removeElement`, `removeElement2`).

Go `int` arithmetic that indexes a string is embedded with its wrap-around
(`findSubstring`). Stateful Go code is embedded as explicit state passing: every call that leaves the
process (operating system, cgroup manager, address allocator, network driver) is
recorded, in program order, in a list of effects, and its result is supplied by a
parameter.
-/

set_option autoImplicit false

namespace container

/-! ## `docker/container/container_process.go` -/

/-- Resource configuration `subsystem.SubSystemConfig`, three strings. -/
structure SubSystemConfig where
  MemoryLimits : String
  CpuShare : String
  CpuSet : String
  deriving DecidableEq

/-- The calls `fork` and `Run` make to the outside, in the order they are made. -/
inductive Effect where
  /-- Call `os.Pipe()`. -/
  | osPipe
  /-- Call `NewWorkSpace(image, containerId, volume)`. -/
  | newWorkSpace (image containerId volume : String)
  /-- Call `parent.Start()` on a non-nil command. -/
  | start
  /-- Call `containManager.ApplySubsystem()`; the manager was built from this path and configuration. -/
  | applySubsystem (cgroupPath : String) (conf : SubSystemConfig)
  /-- Call `containManager.SetPidIntoGroup()`, with the manager's `ProcessId`. -/
  | setPidIntoGroup (processId : String)
  /-- Call `writePipe.WriteString(command)`. -/
  | writeString (command : String)
  /-- Call `writePipe.Close()`. -/
  | closePipe
  /-- Call `parent.Wait()`; it returns when the child has exited. -/
  | wait
  /-- Call `os.Remove(path.Join(elems...))`. -/
  | osRemove (elems : List String)
  /-- Call `containManager.Remove()`. -/
  | remove
  deriving DecidableEq

/-- How an execution of `Run` ends. -/
inductive Ending where
  /-- Control returns to the caller of `Run`. -/
  | returned
  /-- The process ends in `logrus.Fatal`/`logrus.Fatalf`, that is `os.Exit(1)`:
  deferred calls are not run. -/
  | fatalExit
  /-- A run-time panic: a method of `*exec.Cmd` that reads the receiver is called on nil. -/
  | nilDereference
  deriving DecidableEq

/-- Results of the calls that `Run` cannot decide itself. -/
structure Env where
  /-- Value of `randStringBytes(10)`. -/
  containerId : String
  /-- Whether `os.Pipe()` returns an error. -/
  pipeErr : Bool
  /-- Whether `NewWorkSpace` returns an error. -/
  newWorkSpaceErr : Bool
  /-- Whether `parent.Start()` returns an error. -/
  startErr : Bool
  /-- Value of `parent.Process.Pid` after a successful start. -/
  pid : Nat
  /-- Whether `ApplySubsystem` returns an error. -/
  applySubsystemErr : Bool
  /-- Whether `SetPidIntoGroup` returns an error. -/
  setPidIntoGroupErr : Bool
  deriving DecidableEq

/-- The fields of `exec.Cmd` that `fork` sets. -/
structure Cmd where
  Args : List String
  CloneNewNamespaces : Bool
  InheritStd : Bool
  Dir : String
  deriving DecidableEq

/-- The write end of the pipe, `*os.File`. -/
inductive File where
  | pipeWrite
  deriving DecidableEq

def CGroupPathFormat (containerId : String) : String :=
  "/home/guohaonan/ghndocker/container/" ++ containerId ++ "/cgroup"

/-- Embedding of `fork`: the effects, and either the ending `logrus.Fatal` forces or the pair
`(cmds, write)` it returns, each of which is nil (`none`) when `NewWorkSpace` fails. -/
def fork (env : Env) (isStd : Bool) (image containerId volume : String) :
    List Effect × Except Ending (Option Cmd × Option File) :=
  if env.pipeErr then
    ([Effect.osPipe], Except.error Ending.fatalExit)
  else
    let cmds : Cmd :=
      { Args := ["init"], CloneNewNamespaces := true, InheritStd := isStd,
        Dir := "/mnt/" ++ containerId }
    if env.newWorkSpaceErr then
      ([Effect.osPipe, Effect.newWorkSpace image containerId volume], Except.ok (none, none))
    else
      ([Effect.osPipe, Effect.newWorkSpace image containerId volume],
        Except.ok (some cmds, some File.pipeWrite))

/-- Embedding of `sendInitCommand`: on a nil file `WriteString` and `Close` return
`os.ErrInvalid` and do nothing. -/
def sendInitCommand (comArray : List String) (writePipe : Option File) : List Effect :=
  let command := String.intercalate " " comArray
  match writePipe with
  | none => []
  | some _ => [Effect.writeString command, Effect.closePipe]

/-- The statements of `Run` after `defer containManager.Remove()`, up to the end of the body. -/
def runBody (env : Env) (isStd : Bool) (cmds : List String) (conf : SubSystemConfig)
    (containerId : String) (writePipe : Option File) : List Effect × Ending :=
  let cgroupPath := CGroupPathFormat containerId
  let processId := toString env.pid
  if env.applySubsystemErr then
    ([Effect.applySubsystem cgroupPath conf], Ending.fatalExit)
  else if env.setPidIntoGroupErr then
    ([Effect.applySubsystem cgroupPath conf, Effect.setPidIntoGroup processId], Ending.fatalExit)
  else
    let sent := sendInitCommand cmds writePipe
    if isStd then
      ([Effect.applySubsystem cgroupPath conf, Effect.setPidIntoGroup processId] ++ sent ++
        [Effect.wait, Effect.osRemove ["./" ++ containerId]], Ending.returned)
    else
      ([Effect.applySubsystem cgroupPath conf, Effect.setPidIntoGroup processId] ++ sent,
        Ending.returned)

/-- Go's `defer`: the deferred call runs when the body returns or panics, and is skipped when
the process exits through `os.Exit`. -/
def withDefer (deferred : Effect) (body : List Effect × Ending) : List Effect × Ending :=
  match body.2 with
  | Ending.fatalExit => body
  | _ => (body.1 ++ [deferred], body.2)

/-- Embedding of `Run`. -/
def Run (env : Env) (isStd : Bool) (cmds : List String) (conf : SubSystemConfig)
    (image volume : String) : List Effect × Ending :=
  let containerId := env.containerId
  match fork env isStd image containerId volume with
  | (t, Except.error e) => (t, e)
  | (t, Except.ok (parent, writePipe)) =>
    match parent with
    | none => (t, Ending.nilDereference)
    | some _ =>
      if env.startErr then
        (t ++ [Effect.start], Ending.fatalExit)
      else
        let rest := withDefer Effect.remove (runBody env isStd cmds conf containerId writePipe)
        (t ++ [Effect.start] ++ rest.1, rest.2)

/-- Every step of the launch succeeds. -/
def Env.allSucceed (env : Env) : Bool :=
  !env.pipeErr && !env.newWorkSpaceErr && !env.startErr && !env.applySubsystemErr &&
    !env.setPidIntoGroupErr

def Effect.isStart : Effect → Bool
  | Effect.start => true
  | _ => false

def Effect.isApplySubsystem : Effect → Bool
  | Effect.applySubsystem _ _ => true
  | _ => false

def Effect.isSetPidIntoGroup : Effect → Bool
  | Effect.setPidIntoGroup _ => true
  | _ => false

def Effect.isWriteString : Effect → Bool
  | Effect.writeString _ => true
  | _ => false

def Effect.isWait : Effect → Bool
  | Effect.wait => true
  | _ => false

def Effect.isRemove : Effect → Bool
  | Effect.remove => true
  | _ => false

/-- The four launch steps the ordering contract is about. -/
def Effect.isLaunchStep (e : Effect) : Bool :=
  e.isStart || e.isApplySubsystem || e.isSetPidIntoGroup || e.isWriteString

/-- Scan of a trace in program order: every effect satisfying `q` is met only after an effect
satisfying `p` has been met (`seen` tells whether one was met before the scan started). -/
def precededFrom (p q : Effect → Bool) : Bool → List Effect → Bool
  | _, [] => true
  | seen, x :: xs => (!q x || seen) && precededFrom p q (seen || p x) xs

/-- In the trace, every effect satisfying `q` has an effect satisfying `p` before it. -/
def everyPreceded (p q : Effect → Bool) (t : List Effect) : Bool :=
  precededFrom p q false t

/-- An execution in which every step succeeds. -/
def launchOk : Env :=
  { containerId := "0123456789", pipeErr := false, newWorkSpaceErr := false, startErr := false,
    pid := 4242, applySubsystemErr := false, setPidIntoGroupErr := false }

/-- An execution in which `NewWorkSpace` returns an error. -/
def workSpaceFails : Env := { launchOk with newWorkSpaceErr := true }

/-- An execution in which `ApplySubsystem` returns an error. -/
def applySubsystemFails : Env := { launchOk with applySubsystemErr := true }

/-- An execution in which `SetPidIntoGroup` returns an error. -/
def setPidIntoGroupFails : Env := { launchOk with setPidIntoGroupErr := true }

/-- A memory limit of `100m`, no limit on the two cpu axes. -/
def exampleConf : SubSystemConfig := { MemoryLimits := "100m", CpuShare := "", CpuSet := "" }

end container

namespace network

/-! ## `docker/network/network.go`

The package-level variables `networkMapping`, `ipAddressManager` and `NetworkDrivers`, the
`Driver` interface and the type `EndPoint` are declared in files of the package other than
`network.go`; `network.go` fixes how they are used. The registry `networkMapping` is a field
of the state, the allocator and the drivers are parameters (`Host`). -/

/-- Go's `net.IP`, a byte slice. -/
abbrev IP := List Nat

/-- Go's `net.IPNet`. -/
structure IPNet where
  IP : IP
  Mask : List Nat
  deriving DecidableEq

/-- The record `Network`; `IPRange` is a pointer and may be nil (`none`). -/
structure Network where
  NetworkName : String
  Driver : String
  IPRange : Option IPNet
  deriving DecidableEq

/-- The fields of `EndPoint` that `Connect` sets. -/
structure EndPoint where
  ID : String
  IPAddress : IP
  Network : Network
  PortMapping : List String
  deriving DecidableEq

/-- A non-nil Go `error`. -/
inductive GoError where
  /-- Value of `errors.New(msg)`, made in `network.go`. -/
  | errorsNew (msg : String)
  /-- An error value handed back by a callee outside `network.go`. -/
  | fromCallee (text : String)
  deriving DecidableEq

/-- The calls that leave `network.go` and can change state, with their arguments. -/
inductive Call where
  /-- Call `ipAddressManager.Allocate(subnet)`. -/
  | allocate (subnet : Option IPNet)
  /-- Call `ipAddressManager.Release(subnet, &ip)`. -/
  | release (subnet : IPNet) (ip : IP)
  /-- Call `NetworkDrivers[driver].CreateNetwork(subnet, name)`. -/
  | driverCreateNetwork (driver : String) (subnet : IPNet) (name : String)
  /-- Call `NetworkDrivers[driver].DeleteNetwork(network)`. -/
  | driverDeleteNetwork (driver : String) (nw : Network)
  /-- Call `NetworkDrivers[driver].Connect(network, endpoint)`. -/
  | driverConnect (driver : String) (nw : Network) (endpoint : EndPoint)
  /-- Call `os.Stat(path)`. -/
  | stat (path : String)
  /-- Call `os.MkdirAll(path, 0644)`. -/
  | mkdirAll (path : String)
  /-- Call `os.OpenFile(path, os.O_CREATE|os.O_WRONLY|os.O_TRUNC, 0644)`. -/
  | openFile (path : String)
  /-- Call `networkFile.Write(bytes)` on the file opened at `path`. -/
  | write (path : String) (bytes : List Nat)
  /-- Call `networkFile.Close()` on the file opened at `path`. -/
  | close (path : String)
  /-- Call `os.RemoveAll(path)`. -/
  | removeAll (path : String)
  deriving DecidableEq

/-- The three answers of `os.Stat` that `network.go` tells apart. -/
inductive StatResult where
  /-- The error is nil. -/
  | found
  /-- The error satisfies `os.IsNotExist`. -/
  | notExist
  /-- Any other error. -/
  | failed (err : GoError)
  deriving DecidableEq

/-- The interface `Driver` over a host state `σ`. A driver whose `CreateNetwork` returns a nil
error returns a non-nil network. -/
structure Driver (σ : Type) where
  CreateNetwork : IPNet → String → σ → Except GoError Network × σ
  DeleteNetwork : Network → σ → Option GoError × σ
  Connect : Network → EndPoint → σ → Option GoError × σ

/-- Everything `network.go` calls and does not define, over a host state `σ` (allocator
bitmap, devices, files): the Go standard library, `sonic`, `ipAddressManager` and
`NetworkDrivers`. The callees do not write through the pointers they are given. -/
structure Host (σ : Type) where
  /-- The `*net.IPNet` result of `net.ParseCIDR`, or its error. -/
  parseCIDR : String → Except GoError IPNet
  /-- Method `ipAddressManager.Allocate`. -/
  allocate : Option IPNet → σ → Except GoError IP × σ
  /-- Method `ipAddressManager.Release`. -/
  release : IPNet → IP → σ → Option GoError × σ
  /-- The map `NetworkDrivers`. -/
  NetworkDrivers : String → Option (Driver σ)
  /-- Function `path.Join`. -/
  pathJoin : List String → String
  /-- Function `os.Stat`; it reads the state only. -/
  stat : String → σ → StatResult
  /-- Function `os.MkdirAll`. -/
  mkdirAll : String → σ → Option GoError × σ
  /-- Function `os.OpenFile` with create and truncate. -/
  openFile : String → σ → Option GoError × σ
  /-- Function `sonic.Marshal`. -/
  marshal : Network → Except GoError (List Nat)
  /-- Method `Write` of the opened file. -/
  write : String → List Nat → σ → Option GoError × σ
  /-- Method `Close` of the opened file; its result is dropped. -/
  close : String → σ → σ
  /-- Function `os.RemoveAll`. -/
  removeAll : String → σ → Option GoError × σ

/-- State of the process and its host: the host state, the in-memory registry
`networkMapping`, and the calls made so far, first call first. -/
structure World (σ : Type) where
  host : σ
  networkMapping : List (String × Network)
  calls : List Call

/-- Record a call and the host state it leaves. -/
def World.call {σ : Type} (w : World σ) (c : Call) (s : σ) : World σ :=
  { w with host := s, calls := w.calls ++ [c] }

/-- How a function of `network.go` ends: it returns its `error` (nil is `none`) or panics. -/
inductive Outcome where
  | returned (err : Option GoError)
  | panicked
  deriving DecidableEq

def defaultNetworkPath : String := "/home/guohaonan/ghndocker/network"

/-- The first statement of `Dump`: `os.Stat(dir)`, and `os.MkdirAll(dir, 0644)` when the
directory does not exist; the result is the error `Dump` returns at once, if any. -/
def ensureDir {σ : Type} (H : Host σ) (dir : String) (w : World σ) : Option GoError × World σ :=
  let w1 := w.call (Call.stat dir) w.host
  match H.stat dir w.host with
  | StatResult.found => (none, w1)
  | StatResult.notExist =>
    let mk := H.mkdirAll dir w1.host
    (mk.1, w1.call (Call.mkdirAll dir) mk.2)
  | StatResult.failed err => (some err, w1)

/-- Embedding of `(*Network).Dump`. -/
def Network.Dump {σ : Type} (H : Host σ) (network : Network) (dir : String) (w : World σ) :
    Option GoError × World σ :=
  match ensureDir H dir w with
  | (some err, w2) => (some err, w2)
  | (none, w2) =>
    let networkPath := H.pathJoin [defaultNetworkPath, "/", network.NetworkName]
    let o := H.openFile networkPath w2.host
    let w3 := w2.call (Call.openFile networkPath) o.2
    match o.1 with
    | some err => (some err, w3)
    | none =>
      match H.marshal network with
      | Except.error err =>
        (some err, w3.call (Call.close networkPath) (H.close networkPath w3.host))
      | Except.ok bytes =>
        let wr := H.write networkPath bytes w3.host
        let w4 := w3.call (Call.write networkPath bytes) wr.2
        (wr.1, w4.call (Call.close networkPath) (H.close networkPath w4.host))

/-- Embedding of `(*Network).Remove`. -/
def Network.Remove {σ : Type} (H : Host σ) (network : Network) (w : World σ) :
    Option GoError × World σ :=
  let networkPath := H.pathJoin [defaultNetworkPath, "/", network.NetworkName]
  let w1 := w.call (Call.stat networkPath) w.host
  match H.stat networkPath w.host with
  | StatResult.notExist => (none, w1)
  | StatResult.failed err => (some err, w1)
  | StatResult.found =>
    let rm := H.removeAll networkPath w1.host
    (rm.1, w1.call (Call.removeAll networkPath) rm.2)

/-- Embedding of `CreateNetwork`. -/
def CreateNetwork {σ : Type} (H : Host σ) (networkName driverName subnet : String)
    (w : World σ) : Outcome × World σ :=
  match H.parseCIDR subnet with
  | Except.error err => (Outcome.returned (some err), w)
  | Except.ok parsed =>
    let a := H.allocate (some parsed) w.host
    let w1 := w.call (Call.allocate (some parsed)) a.2
    match a.1 with
    | Except.error err => (Outcome.returned (some err), w1)
    | Except.ok gatewayIP =>
      let ipRange : IPNet := { parsed with IP := gatewayIP }
      match H.NetworkDrivers driverName with
      | none =>
        (Outcome.returned
          (some (GoError.errorsNew ("driver:" ++ driverName ++ " doesn\x27t implement"))), w1)
      | some driverInterface =>
        let c := driverInterface.CreateNetwork ipRange networkName w1.host
        let w2 := w1.call (Call.driverCreateNetwork driverName ipRange networkName) c.2
        match c.1 with
        | Except.error err => (Outcome.returned (some err), w2)
        | Except.ok network =>
          let d := network.Dump H defaultNetworkPath w2
          (Outcome.returned d.1, d.2)

/-- Embedding of `DeleteNetwork`. -/
def DeleteNetwork {σ : Type} (H : Host σ) (networkName : String) (w : World σ) :
    Outcome × World σ :=
  match w.networkMapping.lookup networkName with
  | none =>
    (Outcome.returned (some (GoError.errorsNew ("network:" ++ networkName ++ " not existed"))), w)
  | some network =>
    match network.IPRange with
    | none => (Outcome.panicked, w)
    | some ipRange =>
      let r := H.release ipRange ipRange.IP w.host
      let w1 := w.call (Call.release ipRange ipRange.IP) r.2
      match r.1 with
      | some err => (Outcome.returned (some err), w1)
      | none =>
        match H.NetworkDrivers network.Driver with
        | none =>
          (Outcome.returned
            (some (GoError.errorsNew ("driver:" ++ network.Driver ++ " not init"))), w1)
        | some driver =>
          let d := driver.DeleteNetwork network w1.host
          let w2 := w1.call (Call.driverDeleteNetwork network.Driver network) d.2
          match d.1 with
          | some err => (Outcome.returned (some err), w2)
          | none =>
            let rm := network.Remove H w2
            (Outcome.returned rm.1, rm.2)

/-- Embedding of `Connect`. -/
def Connect {σ : Type} (H : Host σ) (networkName portMapping containerId : String)
    (w : World σ) : Outcome × World σ :=
  match w.networkMapping.lookup networkName with
  | none =>
    (Outcome.returned (some (GoError.errorsNew ("network:" ++ networkName ++ " not existed"))), w)
  | some network =>
    let ipRange := network.IPRange
    let a := H.allocate ipRange w.host
    let w1 := w.call (Call.allocate ipRange) a.2
    match a.1 with
    | Except.error err => (Outcome.returned (some err), w1)
    | Except.ok ip =>
      let endpoint : EndPoint :=
        { ID := containerId ++ "-" ++ networkName, IPAddress := ip, Network := network,
          PortMapping := portMapping.splitOn ":" }
      match H.NetworkDrivers network.Driver with
      | none =>
        (Outcome.returned
          (some (GoError.errorsNew ("driver:" ++ network.Driver ++ " not init"))), w1)
      | some driver =>
        let c := driver.Connect network endpoint w1.host
        let w2 := w1.call (Call.driverConnect network.Driver network endpoint) c.2
        match c.1 with
        | some err => (Outcome.returned (some err), w2)
        | none => (Outcome.returned none, w2)

end network

namespace network

/-! ### A small host, to run `network.go` on concrete inputs -/

/-- State of the example host: the offsets set in the allocator bitmap of each subnet, the
bridge devices, the directories and the regular files with their bytes. -/
structure ExampleState where
  allocated : List (List Nat × Nat)
  devices : List String
  dirs : List String
  files : List (String × List Nat)
  deriving DecidableEq

/-- Go's `IP.To4` on an IPv4 address: the 4-byte form of the 16-byte form
`0:0:0:0:0:ffff:a.b.c.d` that parsing a text yields, and the address itself otherwise. -/
def to4 (ip : IP) : IP :=
  if ip.length = 16 ∧ ip.take 12 = [0, 0, 0, 0, 0, 0, 0, 0, 0, 0, 255, 255] then ip.drop 12
  else ip

/-- Key of a /24 subnet in the example allocator: the first three bytes of its address. -/
def subnetKey (n : IPNet) : List Nat := (to4 n.IP).take 3

/-- Modelled from the spec: the address allocator `ipAddressManager` is not in `network.go`.
Section 4.4: `Allocate` takes the first unset bit of the subnet, sets it and returns the network
address plus that offset; the first allocation is the gateway (`192.168.10.1` for
`192.168.10.0/24`); no free bit is an exhaustion error. The example host serves /24 subnets,
host offsets 1 to 254. -/
def exampleAllocate (subnet : Option IPNet) (s : ExampleState) :
    Except GoError IP × ExampleState :=
  match subnet with
  | none => (Except.error (GoError.fromCallee "nil subnet"), s)
  | some n =>
    if n.Mask = [255, 255, 255, 0] then
      match (List.range 254).find? (fun k => !s.allocated.contains (subnetKey n, k + 1)) with
      | none => (Except.error (GoError.fromCallee "no free address in subnet"), s)
      | some k =>
        (Except.ok (subnetKey n ++ [k + 1]),
          { s with allocated := s.allocated ++ [(subnetKey n, k + 1)] })
    else (Except.error (GoError.fromCallee "unsupported subnet size"), s)

/-- Modelled from the spec: `ipAddressManager.Release` is not in `network.go`. Section 4.4:
`Release` clears the bit of the address; releasing an address that is not allocated is a no-op,
not an error. -/
def exampleRelease (subnet : IPNet) (ip : IP) (s : ExampleState) :
    Option GoError × ExampleState :=
  (none,
    { s with
      allocated := s.allocated.filter (fun e => e != (subnetKey subnet, (to4 ip).getD 3 0)) })

/-- Modelled from the spec: the bridge driver is not in `network.go`. Section 4.3:
`CreateNetwork` creates a device named after the network, `DeleteNetwork` removes it and is a
no-op when it is absent, `Connect` attaches an endpoint. -/
def exampleBridge : Driver ExampleState where
  CreateNetwork := fun subnet name s =>
    if s.devices.contains name then
      (Except.error (GoError.fromCallee "device exists"), s)
    else
      (Except.ok { NetworkName := name, Driver := "bridge", IPRange := some subnet },
        { s with devices := s.devices ++ [name] })
  DeleteNetwork := fun nw s =>
    (none, { s with devices := s.devices.filter (fun d => d != nw.NetworkName) })
  Connect := fun _ _ s => (none, s)

/-- The example host. `net.ParseCIDR` is given on the one text the examples use and answers
an error on every other text; `path.Join` is given on elements without dot segments;
`sonic.Marshal` is replaced by the bytes of the network name. -/
def exampleHost : Host ExampleState where
  parseCIDR := fun subnet =>
    if subnet = "192.168.10.0/24" then
      Except.ok { IP := [192, 168, 10, 0], Mask := [255, 255, 255, 0] }
    else Except.error (GoError.fromCallee ("invalid CIDR address: " ++ subnet))
  allocate := exampleAllocate
  release := exampleRelease
  NetworkDrivers := fun name => if name = "bridge" then some exampleBridge else none
  pathJoin := fun elems => String.intercalate "/" (elems.filter (fun e => e != "/" && e != ""))
  stat := fun path s =>
    if s.dirs.contains path || (s.files.lookup path).isSome then StatResult.found
    else StatResult.notExist
  mkdirAll := fun path s => (none, { s with dirs := s.dirs ++ [path] })
  openFile := fun path s =>
    (none, { s with files := (path, []) :: s.files.filter (fun f => f.1 != path) })
  marshal := fun nw => Except.ok (nw.NetworkName.toList.map Char.toNat)
  write := fun path bytes s =>
    (none, { s with files := (path, bytes) :: s.files.filter (fun f => f.1 != path) })
  close := fun _ s => s
  removeAll := fun path s =>
    (none, { s with dirs := s.dirs.filter (fun d => d != path),
                    files := s.files.filter (fun f => f.1 != path) })

/-- A fresh process on a fresh host: nothing allocated, no device, no file, an empty
registry, no call made. -/
def freshWorld : World ExampleState :=
  { host := { allocated := [], devices := [], dirs := [], files := [] },
    networkMapping := [], calls := [] }

/-- The record of `net1` that `CreateNetwork` persists on the example host, as `Load` reads
it back: the address comes back from its text in the 16-byte form. -/
def net1 : Network :=
  { NetworkName := "net1", Driver := "bridge",
    IPRange := some { IP := [0, 0, 0, 0, 0, 0, 0, 0, 0, 0, 255, 255, 192, 168, 10, 1],
                      Mask := [255, 255, 255, 0] } }

/-- A process started after `net1` was created: the host is as `CreateNetwork` left it and the
registry, loaded from the persisted records, holds `net1`. -/
def loadedWorld : World ExampleState :=
  { host := (CreateNetwork exampleHost "net1" "bridge" "192.168.10.0/24" freshWorld).2.host,
    networkMapping := [("net1", net1)], calls := [] }

end network

namespace cmd

/-! ## `docker/cmd.go`

The flag set of `urfave/cli`: every flag declared in the command's `Flags` is registered
under its name with its default value, the command line may set registered names
only, and `context.String(name)` / `context.Bool(name)` look the name up in that set and
answer the zero value for a name that is not registered. -/

/-- The two kinds of flag `runCommand` declares. -/
inductive FlagKind where
  | boolFlag
  | stringFlag
  deriving DecidableEq

/-- A declared flag, `cli.BoolFlag` or `cli.StringFlag` (`Usage` is documentation only). -/
structure Flag where
  Name : String
  kind : FlagKind
  deriving DecidableEq

/-- The `Flags` of `runCommand`. -/
def runCommandFlags : List Flag :=
  [ { Name := "it", kind := FlagKind.boolFlag },
    { Name := "memory", kind := FlagKind.stringFlag },
    { Name := "cpushre", kind := FlagKind.stringFlag },
    { Name := "cpuset", kind := FlagKind.stringFlag } ]

/-- The registered flags with their current value as text. -/
abbrev FlagSet := List (String × String)

/-- A parsed command line: the flag set and the positional arguments `context.Args()`. -/
structure Context where
  flagSet : FlagSet
  args : List String
  deriving DecidableEq

/-- Default value of a flag, as text. -/
def Flag.defaultText (f : Flag) : String :=
  match f.kind with
  | FlagKind.boolFlag => "false"
  | FlagKind.stringFlag => ""

/-- The flag set of a command before the command line is read. -/
def newFlagSet (flags : List Flag) : FlagSet :=
  flags.map (fun f => (f.Name, f.defaultText))

/-- Go's `strconv.ParseBool`. -/
def parseBool (v : String) : Option Bool :=
  if v ∈ ["1", "t", "T", "TRUE", "true", "True"] then some true
  else if v ∈ ["0", "f", "F", "FALSE", "false", "False"] then some false
  else none

/-- Give a registered flag a new value. -/
def FlagSet.update (fs : FlagSet) (name value : String) : FlagSet :=
  fs.map (fun e => if e.1 = name then (e.1, value) else e)

/-- Set one flag from the command line (a bool flag given without a value has the value
`true`). A name that is not declared is the error "flag provided but not defined"; the value
of a bool flag goes through `strconv.ParseBool` and is kept as `true` or `false`, and a text
that does not parse is an error. -/
def FlagSet.set (flags : List Flag) (fs : FlagSet) (name value : String) :
    Except String FlagSet :=
  match flags.find? (fun f => f.Name == name) with
  | none => Except.error ("flag provided but not defined: -" ++ name)
  | some f =>
    match f.kind with
    | FlagKind.stringFlag => Except.ok (fs.update name value)
    | FlagKind.boolFlag =>
      match parseBool value with
      | some b => Except.ok (fs.update name (if b then "true" else "false"))
      | none => Except.error ("invalid boolean value " ++ value ++ " for -" ++ name)

/-- Read the flag settings of a command line, left to right. -/
def FlagSet.parse (flags : List Flag) : FlagSet → List (String × String) → Except String FlagSet
  | fs, [] => Except.ok fs
  | fs, (name, value) :: rest =>
    match fs.set flags name value with
    | Except.error e => Except.error e
    | Except.ok fs1 => FlagSet.parse flags fs1 rest

/-- The context `runCommand`'s action receives for the given flag settings and arguments. -/
def runContext (settings : List (String × String)) (args : List String) :
    Except String Context :=
  match (newFlagSet runCommandFlags).parse runCommandFlags settings with
  | Except.error e => Except.error e
  | Except.ok fs => Except.ok { flagSet := fs, args := args }

/-- Method `context.String(name)`, that is `lookupString(name, flagSet)`. -/
def Context.lookupString (c : Context) (name : String) : String :=
  match c.flagSet.lookup name with
  | some v => v
  | none => ""

/-- Method `context.Bool(name)`, that is `lookupBool(name, flagSet)`: the value of the flag
through `strconv.ParseBool`, and false for a name that is not registered or a text that does
not parse. -/
def Context.lookupBool (c : Context) (name : String) : Bool :=
  match c.flagSet.lookup name with
  | some v => (parseBool v).getD false
  | none => false

/-- How the action of `runCommand` ends. -/
inductive ActionResult where
  /-- Returns `fmt.Errorf("missing Container command")`. -/
  | missingCommand
  /-- Ends in `logrus.Fatal(err)` because `os.Stat` of the first argument failed. -/
  | fatalExit
  /-- Calls `container.RunContainer(itFlag, cmds, resConf)` and returns nil. -/
  | runContainer (itFlag : Bool) (cmds : List String) (resConf : container.SubSystemConfig)
  deriving DecidableEq

/-- Embedding of `runCommand.Action`; `statErr` tells whether `os.Stat` of the first
argument returns an error. -/
def runCommandAction (statErr : Bool) (context : Context) : ActionResult :=
  if context.args.length < 1 then ActionResult.missingCommand
  else if statErr then ActionResult.fatalExit
  else
    let cmds := context.args
    let itFlag := context.lookupBool "it"
    let resConf : container.SubSystemConfig :=
      { MemoryLimits := context.lookupString "memory",
        CpuSet := context.lookupString "cpuset",
        CpuShare := context.lookupString "cpushare" }
    ActionResult.runContainer itFlag cmds resConf

end cmd

namespace slide_window

/-! ## `leetcode/classic/slide_window/30_substring_with_concatenation_all.go` -/

/-- A Go string: its bytes. -/
abbrev Str := List Nat

/-- The slice expression `s[lo:hi]`; `none` is the run-time panic "slice bounds out of range". -/
def slice (s : Str) (lo hi : Nat) : Option Str :=
  if lo ≤ hi ∧ hi ≤ s.length then some ((s.drop lo).take (hi - lo)) else none

/-- A Go `map[string]int`, as an association list without repeated keys. -/
abbrev Dict := List (Str × Int)

/-- The two-valued index expression `cnt, ok := d[word]`. -/
def Dict.get (d : Dict) (word : Str) : Int × Bool :=
  match d.lookup word with
  | some cnt => (cnt, true)
  | none => (0, false)

/-- The statement `d[word] += delta` (also `d[word]--`): an absent key starts from zero. -/
def Dict.add : Dict → Str → Int → Dict
  | [], word, delta => [(word, delta)]
  | (k, v) :: rest, word, delta =>
    if k = word then (k, v + delta) :: rest else (k, v) :: Dict.add rest word delta

/-- The first loop of `findSubstringV2`: `dict[word] += 1` for every word. -/
def countWords (words : List Str) : Dict :=
  words.foldl (fun d word => d.add word 1) []

/-- The inner `for` loop of `findSubstringV2`, by recursion on `threshold`; the result is the
value of `threshold` when the loop is left, or `none` when a slice expression panics. -/
def innerLoop (s : Str) (unit : Nat) :
    Nat → Nat → Nat → Str → Int → Bool → Dict → Option Nat
  | 0, _, _, _, _, _, _ => some 0
  | threshold + 1, left, right, word, cnt, ok, dictCopy =>
    if right ≤ s.length ∧ ok = true ∧ cnt > 0 then
      let dictCopy1 := dictCopy.add word (-1)
      if right = s.length then
        innerLoop s unit threshold left right word cnt ok dictCopy1
      else
        match slice s (left + unit) (right + unit) with
        | none => none
        | some word1 =>
          innerLoop s unit threshold (left + unit) (right + unit) word1
            (dictCopy1.get word1).1 (dictCopy1.get word1).2 dictCopy1
    else some (threshold + 1)

/-- The outer `for` loop of `findSubstringV2` from index `i` on; `fuel` bounds the number of
iterations (the loop makes at most `len(s) + 1`). -/
def outerLoop (s : Str) (words : List Str) (dict : Dict) (num unit : Nat) :
    Nat → Nat → List Nat → Option (List Nat)
  | 0, _, res => some res
  | fuel + 1, i, res =>
    if i + num * unit ≤ s.length then
      match slice s i (i + unit) with
      | none => none
      | some word =>
        match innerLoop s unit words.length i (i + unit) word (dict.get word).1
            (dict.get word).2 dict with
        | none => none
        | some threshold =>
          outerLoop s words dict num unit fuel (i + 1)
            (if threshold = 0 then res ++ [i] else res)
    else some res

/-- Embedding of `findSubstringV2`; `none` is a run-time panic (`words[0]` on an empty slice,
or a slice expression out of bounds). -/
def findSubstringV2 (s : Str) (words : List Str) : Option (List Nat) :=
  match words with
  | [] => none
  | first :: _ =>
    let num := words.length
    let unit := first.length
    let dict := countWords words
    outerLoop s words dict num unit (s.length + 1) 0 []

/-- What the contract asks of index `i`: the window `s[i : i + n*w]` is the concatenation of
some permutation of `words`. -/
def isConcatenationAt (s : Str) (words : List Str) (i : Nat) : Prop :=
  ∃ p : List Str, p.Perm words ∧ (s.drop i).take (words.length * (words.headD []).length) = p.flatten
    ∧ i + words.length * (words.headD []).length ≤ s.length

end slide_window

namespace slide_window

/-! ### `findSubstring`

The variables of `findSubstring` are Go `int`s, of 32 or 64 bits: sums, differences and
products wrap around, comparisons are signed. -/

/-- Half the range of an `int` of `bits` bits, which holds the values from `-intHalf bits` to
`intHalf bits - 1`. -/
def intHalf (bits : Nat) : Int := 2 ^ (bits - 1)

/-- The `int` of `bits` bits that Go computes where the exact result is `x`. -/
def wrapInt (bits : Nat) (x : Int) : Int :=
  (x + intHalf bits) % (2 * intHalf bits) - intHalf bits

/-- Go's `a + b` on `int`. -/
def addInt (bits : Nat) (a b : Int) : Int := wrapInt bits (a + b)

/-- Go's `a - b` on `int`. -/
def subInt (bits : Nat) (a b : Int) : Int := wrapInt bits (a - b)

/-- Go's `a * b` on `int`. -/
def mulInt (bits : Nat) (a b : Int) : Int := wrapInt bits (a * b)

/-- The slice expression `s[lo:hi]` with `int` bounds; `none` is the run-time panic
"slice bounds out of range". -/
def sliceInt (s : Str) (lo hi : Int) : Option Str :=
  if 0 ≤ lo ∧ lo ≤ hi ∧ hi ≤ (s.length : Int) then
    some ((s.drop lo.toNat).take (hi.toNat - lo.toNat))
  else none

/-- How a run of `findSubstring`, or of one of its loops, ends. -/
inductive Result (α : Type) where
  /-- The run ends with this value. -/
  | value (a : α)
  /-- A run-time panic: an index or a slice bound out of range. -/
  | panic
  /-- The loop was still running when the iterations the embedding allows were used up. -/
  | outOfFuel
  deriving DecidableEq

/-- The statement `delete(d, word)`. -/
def Dict.delete (d : Dict) (word : Str) : Dict :=
  d.filter (fun e => e.1 != word)

/-- The statement `d[word] += delta` (`d[word]++`, `d[word]--`) on a map of `int`: an absent
key starts from zero, the sum wraps around. -/
def Dict.addWrap (bits : Nat) : Dict → Str → Int → Dict
  | [], word, delta => [(word, addInt bits 0 delta)]
  | (k, v) :: rest, word, delta =>
    if k = word then (k, addInt bits v delta) :: rest
    else (k, v) :: Dict.addWrap bits rest word delta

/-- The statements `d[word] += delta; if d[word] == 0 { delete(d, word) }`. -/
def Dict.bump (bits : Nat) (d : Dict) (word : Str) (delta : Int) : Dict :=
  if ((d.addWrap bits word delta).get word).1 = 0 then (d.addWrap bits word delta).delete word
  else d.addWrap bits word delta

/-- The first inner loop of `findSubstring`, `for j := 1; j <= num_of_words; j++`, from `j` on:
`differ[word]++` for the block `s[i+(j-1)*word_length : i+j*word_length]`. -/
def windowLoop (bits : Nat) (s : Str) (num_of_words word_length i : Int) :
    Nat → Int → Dict → Result Dict
  | fuel, j, differ =>
    if j ≤ num_of_words then
      match fuel with
      | 0 => Result.outOfFuel
      | fuel1 + 1 =>
        match sliceInt s (addInt bits i (mulInt bits (subInt bits j 1) word_length))
            (addInt bits i (mulInt bits j word_length)) with
        | none => Result.panic
        | some word =>
          windowLoop bits s num_of_words word_length i fuel1 (addInt bits j 1)
            (differ.addWrap bits word 1)
    else Result.value differ

/-- The second inner loop of `findSubstring`, `for _, word := range words`. -/
def wordsLoop (bits : Nat) (words : List Str) (differ : Dict) : Dict :=
  words.foldl (fun d word => d.bump bits word (-1)) differ

/-- The condition `k + num_of_words*word_length - 1 < length` of the two `for` loops over
start indices. -/
def fits (bits : Nat) (s : Str) (num_of_words word_length k : Int) : Prop :=
  subInt bits (addInt bits k (mulInt bits num_of_words word_length)) 1 < (s.length : Int)

instance (bits : Nat) (s : Str) (num_of_words word_length k : Int) :
    Decidable (fits bits s num_of_words word_length k) := by
  unfold fits
  infer_instance

/-- The body of `if start != i` in the third inner loop: the map after the window has moved
one word to the right, or `none` when a slice expression panics. -/
def slideStep (bits : Nat) (s : Str) (num_of_words word_length start : Int) (differ : Dict) :
    Option Dict :=
  match sliceInt s (addInt bits start (mulInt bits (subInt bits num_of_words 1) word_length))
      (addInt bits start (mulInt bits num_of_words word_length)) with
  | none => none
  | some right_word =>
    match sliceInt s (subInt bits start word_length) start with
    | none => none
    | some left_word => some ((differ.bump bits right_word 1).bump bits left_word (-1))

/-- The third inner loop of `findSubstring`,
`for start := i; start+num_of_words*word_length-1 < length; start += word_length`, from
`start` on. -/
def slideLoop (bits : Nat) (s : Str) (num_of_words word_length i : Int) :
    Nat → Int → Dict → List Int → Result (List Int)
  | fuel, start, differ, res =>
    if fits bits s num_of_words word_length start then
      match fuel with
      | 0 => Result.outOfFuel
      | fuel1 + 1 =>
        match (if start ≠ i then slideStep bits s num_of_words word_length start differ
               else some differ) with
        | none => Result.panic
        | some differ1 =>
          slideLoop bits s num_of_words word_length i fuel1 (addInt bits start word_length)
            differ1 (if differ1.length = 0 then res ++ [start] else res)
    else Result.value res

/-- The outer loop of `findSubstring`,
`for i := 0; i < word_length && i+num_of_words*word_length-1 < length; i++`, from `i` on. The
first inner loop gets `len(words)` iterations and the third one `len(s)`, as many as they
make when no `int` wraps around. -/
def splitLoop (bits : Nat) (s : Str) (words : List Str) (num_of_words word_length : Int) :
    Nat → Int → List Int → Result (List Int)
  | fuel, i, res =>
    if i < word_length ∧ fits bits s num_of_words word_length i then
      match fuel with
      | 0 => Result.outOfFuel
      | fuel1 + 1 =>
        match windowLoop bits s num_of_words word_length i words.length 1 [] with
        | Result.panic => Result.panic
        | Result.outOfFuel => Result.outOfFuel
        | Result.value differ =>
          match slideLoop bits s num_of_words word_length i s.length i
              (wordsLoop bits words differ) res with
          | Result.panic => Result.panic
          | Result.outOfFuel => Result.outOfFuel
          | Result.value res1 =>
            splitLoop bits s words num_of_words word_length fuel1 (addInt bits i 1) res1
    else Result.value res

/-- Embedding of `findSubstring` for an `int` of `bits` bits. `words[0]` on an empty slice is
a panic. `len(s)`, `len(words)` and `len(words[0])` are `int` values. The outer loop gets
`len(words[0])` iterations, as many as it makes when no `int` wraps around. -/
def findSubstring (bits : Nat) (s : Str) (words : List Str) : Result (List Int) :=
  match words with
  | [] => Result.panic
  | first :: _ =>
    splitLoop bits s words (words.length : Int) (first.length : Int) first.length 0 []

/-- The block of `w` bytes of `s` that starts at index `j`. -/
def block (s : Str) (w j : Nat) : Str := (s.drop j).take w

/-- The `n` consecutive blocks of `w` bytes of `s` from index `j` on. -/
def blocks (s : Str) (w : Nat) : Nat → Nat → List Str
  | 0, _ => []
  | n + 1, j => block s w j :: blocks s w n (j + w)

/-- No entry of the map holds zero. -/
def NoZero (d : Dict) : Prop := ∀ e ∈ d, e.2 ≠ 0

/-- Every entry of the map is positive. -/
def AllPos (d : Dict) : Prop := ∀ e ∈ d, 0 < e.2

/-- The map `d` holds, for every word, its number of occurrences among the `n` blocks of `s`
from index `k` on minus its number of occurrences in `words`, and holds no zero. -/
def Represents (s : Str) (words : List Str) (w n : Nat) (d : Dict) (k : Nat) : Prop :=
  NoZero d ∧ ∀ x, (d.get x).1 = ((blocks s w n k).count x : Int) - (words.count x : Int)

/-- Every word occurs as often among the `n` blocks of `s` from index `k` on as in `words`. -/
def Matches (s : Str) (words : List Str) (w n k : Nat) : Prop :=
  ∀ x, (blocks s w n k).count x = words.count x

end slide_window

namespace classic

/-! ## `leetcode/classic/27_remove_duplicate2.go`

A Go slice is a window into an array: the functions get the slice header by value and share
the array with the caller. The arrays live in a heap; `append` writes into the array of its
first argument when the capacity allows and allocates a new array otherwise. -/

/-- The arrays of `int` that slices point into, by number. -/
abbrev Heap := List (List Int)

/-- A slice header: the array it points into, the index of its first element in that array,
its length and its capacity. -/
structure Slice where
  arr : Nat
  off : Nat
  len : Nat
  cap : Nat
  deriving DecidableEq

/-- The header describes a window of an array of the heap. -/
def Slice.Valid (h : Heap) (s : Slice) : Prop :=
  s.arr < h.length ∧ s.len ≤ s.cap ∧ s.off + s.cap ≤ (h.getD s.arr []).length

/-- The elements of a slice, `s[0], ..., s[len(s)-1]`. -/
def Slice.elems (h : Heap) (s : Slice) : List Int :=
  ((h.getD s.arr []).drop s.off).take s.len

/-- The index expression `s[i]`; `none` is the run-time panic "index out of range". -/
def Slice.index (h : Heap) (s : Slice) (i : Nat) : Option Int :=
  if i < s.len then some ((h.getD s.arr []).getD (s.off + i) 0) else none

/-- The assignment `s[i] = x`; `none` is the run-time panic "index out of range". -/
def Slice.assign (h : Heap) (s : Slice) (i : Nat) (x : Int) : Option Heap :=
  if i < s.len then some (h.set s.arr ((h.getD s.arr []).set (s.off + i) x)) else none

/-- The slice expression `s[lo:]`; `none` is the run-time panic "slice bounds out of range". -/
def Slice.sliceFrom (s : Slice) (lo : Nat) : Option Slice :=
  if lo ≤ s.len then
    some { arr := s.arr, off := s.off + lo, len := s.len - lo, cap := s.cap - lo }
  else none

/-- The slice expression `s[:hi]`, whose bound is the capacity; `none` is the run-time panic
"slice bounds out of range". -/
def Slice.sliceTo (s : Slice) (hi : Nat) : Option Slice :=
  if hi ≤ s.cap then some { s with len := hi } else none

/-- Overwrite the elements of `a` from index `pos` on with `xs`. -/
def writeAt (a : List Int) (pos : Nat) (xs : List Int) : List Int :=
  a.take pos ++ xs ++ a.drop (pos + xs.length)

/-- The call `append(s, xs...)`: the elements `xs` are read first, then written behind the
elements of `s`, into the array of `s` when `len(s) + len(xs) <= cap(s)`, and otherwise
into a new array that starts with a copy of `s`. The spare capacity of a new array of `n`
elements is `grow n`; Go leaves it to the implementation. -/
def append (grow : Nat → Nat) (h : Heap) (s : Slice) (xs : List Int) : Heap × Slice :=
  if s.len + xs.length ≤ s.cap then
    (h.set s.arr (writeAt (h.getD s.arr []) (s.off + s.len) xs),
      { s with len := s.len + xs.length })
  else
    (h ++ [s.elems h ++ xs ++ List.replicate (grow (s.len + xs.length)) 0],
      { arr := h.length, off := 0, len := s.len + xs.length,
        cap := s.len + xs.length + grow (s.len + xs.length) })

/-- The loop `for times := 0; times < length; times++` of `removeElement` with `remaining`
iterations to go (`remaining = length - times`; the body does not read `times`). The result
is the value of `cur` and the heap when the loop is left, or `none` for a run-time panic. -/
def removeElementLoop (grow : Nat → Nat) (val : Int) :
    Nat → Heap → Slice → Nat → Option (Nat × Heap)
  | 0, h, _, cur => some (cur, h)
  | remaining + 1, h, nums, cur =>
    match nums.index h cur with
    | none => none
    | some x =>
      if x ≠ val then removeElementLoop grow val remaining h nums (cur + 1)
      else
        match nums.sliceFrom (cur + 1) with
        | none => none
        | some temp =>
          match nums.sliceTo cur with
          | none => none
          | some front =>
            removeElementLoop grow val remaining
              (append grow (append grow h temp [x]).1 front
                ((append grow h temp [x]).2.elems (append grow h temp [x]).1)).1
              (append grow (append grow h temp [x]).1 front
                ((append grow h temp [x]).2.elems (append grow h temp [x]).1)).2
              cur

/-- Embedding of `removeElement`: the value returned and the heap it leaves. -/
def removeElement (grow : Nat → Nat) (h : Heap) (nums : Slice) (val : Int) :
    Option (Nat × Heap) :=
  removeElementLoop grow val nums.len h nums 0

/-- The loop `for fast := 0; fast < len(nums); fast++` of `removeElement2` with `remaining`
iterations to go (`remaining = len(nums) - fast`). The result is the value of `slow` and the
heap when the loop is left, or `none` for a run-time panic. -/
def removeElement2Loop (val : Int) :
    Nat → Heap → Slice → Nat → Nat → Option (Nat × Heap)
  | 0, h, _, _, slow => some (slow, h)
  | remaining + 1, h, nums, fast, slow =>
    match nums.index h fast with
    | none => none
    | some x =>
      if x ≠ val then
        match nums.assign h slow x with
        | none => none
        | some h1 => removeElement2Loop val remaining h1 nums (fast + 1) (slow + 1)
      else removeElement2Loop val remaining h nums (fast + 1) slow

/-- Embedding of `removeElement2`: the value returned and the heap it leaves. -/
def removeElement2 (h : Heap) (nums : Slice) (val : Int) : Option (Nat × Heap) :=
  removeElement2Loop val nums.len h nums 0 0

end classic

/-! ## Theorems -/

namespace container

/-- C1: in every execution of `Run` in which every step succeeds, `Run` returns and the four
launch steps occur exactly once each, in the order start, apply limits, place the pid, write
the command; and in every execution whatsoever the command is written only after the pid was
placed, the pid is placed only after the limits were applied, and the limits are applied only
after the child was started. -/
theorem Run_launch_order (env : Env) (isStd : Bool) (cmds : List String)
    (conf : SubSystemConfig) (image volume : String) :
    (env.allSucceed = true →
      (Run env isStd cmds conf image volume).2 = Ending.returned ∧
      (Run env isStd cmds conf image volume).1.filter Effect.isLaunchStep =
        [Effect.start, Effect.applySubsystem (CGroupPathFormat env.containerId) conf,
          Effect.setPidIntoGroup (toString env.pid),
          Effect.writeString (String.intercalate " " cmds)]) ∧
    everyPreceded Effect.isSetPidIntoGroup Effect.isWriteString
      (Run env isStd cmds conf image volume).1 = true ∧
    everyPreceded Effect.isApplySubsystem Effect.isSetPidIntoGroup
      (Run env isStd cmds conf image volume).1 = true ∧
    everyPreceded Effect.isStart Effect.isApplySubsystem
      (Run env isStd cmds conf image volume).1 = true := by
  obtain ⟨cid, pe, we, se, pid, ae, spe⟩ := env
  cases isStd <;> cases pe <;> cases we <;> cases se <;> cases ae <;> cases spe <;>
    simp [Run, fork, runBody, withDefer, sendInitCommand, everyPreceded, precededFrom,
      Effect.isLaunchStep, Effect.isStart, Effect.isApplySubsystem, Effect.isSetPidIntoGroup,
      Effect.isWriteString, Env.allSucceed]

/-- Witness of `Run_launch_order`: the interactive launch in which every step succeeds. -/
theorem Run_launch_order_witness :
    launchOk.allSucceed = true ∧
    (Run launchOk true ["/bin/sh"] exampleConf "busybox" "").2 = Ending.returned ∧
    (Run launchOk true ["/bin/sh"] exampleConf "busybox" "").1.filter Effect.isLaunchStep =
      [Effect.start, Effect.applySubsystem (CGroupPathFormat launchOk.containerId) exampleConf,
        Effect.setPidIntoGroup (toString launchOk.pid),
        Effect.writeString (String.intercalate " " ["/bin/sh"])] :=
  ⟨by decide,
    (Run_launch_order launchOk true ["/bin/sh"] exampleConf "busybox" "").1 (by decide)⟩

/-- C2, evaluated: the detached launch (`isStd = false`) in which every step succeeds calls
`containManager.Remove()` on return although `parent.Wait()` was never called, whereas the
interactive launch calls `Remove` only after `Wait`. -/
theorem Run_detached_remove_without_wait :
    Run launchOk false ["/bin/sh"] exampleConf "busybox" "" =
      ([Effect.osPipe, Effect.newWorkSpace "busybox" "0123456789" "", Effect.start,
        Effect.applySubsystem "/home/guohaonan/ghndocker/container/0123456789/cgroup"
          exampleConf,
        Effect.setPidIntoGroup "4242", Effect.writeString "/bin/sh", Effect.closePipe,
        Effect.remove], Ending.returned) ∧
    everyPreceded Effect.isWait Effect.isRemove
      (Run launchOk false ["/bin/sh"] exampleConf "busybox" "").1 = false ∧
    everyPreceded Effect.isWait Effect.isRemove
      (Run launchOk true ["/bin/sh"] exampleConf "busybox" "").1 = true := by
  decide

/-- C3, evaluated: when `NewWorkSpace` fails, `fork` returns a nil command and `Run` calls
`Start` on it: the execution ends in a nil-dereference panic, for both values of `isStd`,
after `os.Pipe` and `NewWorkSpace` only. -/
theorem Run_workspace_failure_panics :
    Run workSpaceFails true ["/bin/sh"] exampleConf "busybox" "" =
      ([Effect.osPipe, Effect.newWorkSpace "busybox" "0123456789" ""],
        Ending.nilDereference) ∧
    Run workSpaceFails false ["/bin/sh"] exampleConf "busybox" "" =
      ([Effect.osPipe, Effect.newWorkSpace "busybox" "0123456789" ""],
        Ending.nilDereference) := by
  decide

/-- C4, evaluated: when `ApplySubsystem` or `SetPidIntoGroup` returns an error the command is
not written to the pipe, and the execution ends in `logrus.Fatalf` without the deferred
`containManager.Remove()` being run. -/
theorem Run_cgroup_failure_skips_remove :
    Run applySubsystemFails true ["/bin/sh"] exampleConf "busybox" "" =
      ([Effect.osPipe, Effect.newWorkSpace "busybox" "0123456789" "", Effect.start,
        Effect.applySubsystem "/home/guohaonan/ghndocker/container/0123456789/cgroup"
          exampleConf], Ending.fatalExit) ∧
    Run setPidIntoGroupFails true ["/bin/sh"] exampleConf "busybox" "" =
      ([Effect.osPipe, Effect.newWorkSpace "busybox" "0123456789" "", Effect.start,
        Effect.applySubsystem "/home/guohaonan/ghndocker/container/0123456789/cgroup"
          exampleConf,
        Effect.setPidIntoGroup "4242"], Ending.fatalExit) ∧
    Effect.remove ∉ (Run applySubsystemFails true ["/bin/sh"] exampleConf "busybox" "").1 ∧
    Effect.remove ∉ (Run setPidIntoGroupFails true ["/bin/sh"] exampleConf "busybox" "").1 := by
  decide

/-- C5: `Run` waits for the child exactly when `isStd` is true. With `isStd = false` no
execution calls `parent.Wait()`; an execution that returns has called `parent.Wait()` if and
only if `isStd = true`; and when every step succeeds the execution does return. -/
theorem Run_waits_iff_isStd (env : Env) (isStd : Bool) (cmds : List String)
    (conf : SubSystemConfig) (image volume : String) :
    (isStd = false → Effect.wait ∉ (Run env isStd cmds conf image volume).1) ∧
    ((Run env isStd cmds conf image volume).2 = Ending.returned →
      (Effect.wait ∈ (Run env isStd cmds conf image volume).1 ↔ isStd = true)) ∧
    (env.allSucceed = true → (Run env isStd cmds conf image volume).2 = Ending.returned) := by
  obtain ⟨cid, pe, we, se, pid, ae, spe⟩ := env
  cases isStd <;> cases pe <;> cases we <;> cases se <;> cases ae <;> cases spe <;>
    simp [Run, fork, runBody, withDefer, sendInitCommand, Env.allSucceed]

/-- Witness of `Run_waits_iff_isStd`: the detached launch returns without `Wait`, the
interactive launch returns after `Wait`. -/
theorem Run_waits_iff_isStd_witness :
    Effect.wait ∉ (Run launchOk false ["/bin/sh"] exampleConf "busybox" "").1 ∧
    (Run launchOk false ["/bin/sh"] exampleConf "busybox" "").2 = Ending.returned ∧
    Effect.wait ∈ (Run launchOk true ["/bin/sh"] exampleConf "busybox" "").1 ∧
    (Run launchOk true ["/bin/sh"] exampleConf "busybox" "").2 = Ending.returned :=
  ⟨(Run_waits_iff_isStd launchOk false ["/bin/sh"] exampleConf "busybox" "").1 rfl,
    (Run_waits_iff_isStd launchOk false ["/bin/sh"] exampleConf "busybox" "").2.2 (by decide),
    ((Run_waits_iff_isStd launchOk true ["/bin/sh"] exampleConf "busybox" "").2.1
      ((Run_waits_iff_isStd launchOk true ["/bin/sh"] exampleConf "busybox" "").2.2
        (by decide))).2 rfl,
    (Run_waits_iff_isStd launchOk true ["/bin/sh"] exampleConf "busybox" "").2.2 (by decide)⟩

end container

namespace network

/-! ## Frame lemmas: what `network.go` leaves alone -/

theorem lookup_none_of_not_key (m : List (String × Network)) (name : String)
    (h : ∀ nw, (name, nw) ∉ m) : m.lookup name = none := by
  rw [List.lookup_eq_none_iff]
  intro p hp
  by_contra hc
  have hk : name = p.1 := by simpa using hc
  exact h p.2 (by rw [hk]; exact hp)

theorem ensureDir_networkMapping {σ : Type} (H : Host σ) (dir : String) (w : World σ) :
    (ensureDir H dir w).2.networkMapping = w.networkMapping := by
  unfold ensureDir
  dsimp only
  split <;> rfl

theorem Dump_networkMapping {σ : Type} (H : Host σ) (nw : Network) (dir : String)
    (w : World σ) : (nw.Dump H dir w).2.networkMapping = w.networkMapping := by
  have h := ensureDir_networkMapping H dir w
  unfold Network.Dump
  dsimp only
  split
  · next err w2 heq => rw [heq] at h; exact h
  · next w2 heq =>
    rw [heq] at h
    split
    · exact h
    · split <;> exact h

theorem Remove_networkMapping {σ : Type} (H : Host σ) (nw : Network) (w : World σ) :
    (nw.Remove H w).2.networkMapping = w.networkMapping := by
  unfold Network.Remove
  dsimp only
  split <;> rfl

theorem CreateNetwork_networkMapping {σ : Type} (H : Host σ)
    (networkName driverName subnet : String) (w : World σ) :
    (CreateNetwork H networkName driverName subnet w).2.networkMapping = w.networkMapping := by
  unfold CreateNetwork
  dsimp only
  split
  · rfl
  · split
    · rfl
    · split
      · rfl
      · split
        · rfl
        · exact Dump_networkMapping _ _ _ _

theorem DeleteNetwork_networkMapping {σ : Type} (H : Host σ) (networkName : String)
    (w : World σ) : (DeleteNetwork H networkName w).2.networkMapping = w.networkMapping := by
  unfold DeleteNetwork
  dsimp only
  split
  · rfl
  · split
    · rfl
    · split
      · rfl
      · split
        · rfl
        · split
          · rfl
          · exact Remove_networkMapping _ _ _

theorem Remove_calls {σ : Type} (H : Host σ) (nw : Network) (w : World σ) :
    ∃ rest, (nw.Remove H w).2.calls = w.calls ++ rest := by
  unfold Network.Remove
  dsimp only
  split
  · exact ⟨_, rfl⟩
  · exact ⟨_, rfl⟩
  · exact ⟨_, by simp [World.call]; rfl⟩

theorem DeleteNetwork_calls_release {σ : Type} (H : Host σ) (networkName : String)
    (w : World σ) (nw : Network) (r : IPNet)
    (h1 : w.networkMapping.lookup networkName = some nw) (h2 : nw.IPRange = some r) :
    ∃ rest, (DeleteNetwork H networkName w).2.calls = w.calls ++ Call.release r r.IP :: rest := by
  unfold DeleteNetwork
  simp only [h1, h2]
  split
  · exact ⟨[], rfl⟩
  · split
    · exact ⟨[], rfl⟩
    · split
      · exact ⟨_, by simp [World.call]; rfl⟩
      · obtain ⟨rest, hr⟩ := Remove_calls H nw
          ((w.call (Call.release r r.IP) (H.release r r.IP w.host).2).call
            (Call.driverDeleteNetwork nw.Driver nw)
            (_ : σ))
        exact ⟨_, by rw [hr]; simp [World.call]; rfl⟩

/-! ## The claims on `network.go` -/

/-- C6: for a network name that is not a key of `networkMapping`, and for every host (allocator,
drivers, file system) and state, `DeleteNetwork` and `Connect` return the error
`network:<name> not existed` and leave the state as it was: the host state and the registry
are unchanged and no call (no `Allocate`, `Release`, driver operation or file removal) is
added to the calls made. -/
theorem unknown_network_no_mutation {σ : Type} (H : Host σ) (w : World σ)
    (networkName : String) (h : ∀ nw, (networkName, nw) ∉ w.networkMapping) :
    DeleteNetwork H networkName w =
      (Outcome.returned (some (GoError.errorsNew ("network:" ++ networkName ++ " not existed"))),
        w) ∧
    ∀ portMapping containerId : String, Connect H networkName portMapping containerId w =
      (Outcome.returned (some (GoError.errorsNew ("network:" ++ networkName ++ " not existed"))),
        w) := by
  have hl := lookup_none_of_not_key w.networkMapping networkName h
  constructor
  · simp [DeleteNetwork, hl]
  · intro pm cid
    simp [Connect, hl]

/-- Witness of `unknown_network_no_mutation`: `net1` on a fresh process of the example host. -/
theorem unknown_network_no_mutation_witness :
    (∀ nw, ("net1", nw) ∉ freshWorld.networkMapping) ∧
    DeleteNetwork exampleHost "net1" freshWorld =
      (Outcome.returned (some (GoError.errorsNew ("network:" ++ "net1" ++ " not existed"))),
        freshWorld) ∧
    Connect exampleHost "net1" "80:8080" "0123456789" freshWorld =
      (Outcome.returned (some (GoError.errorsNew ("network:" ++ "net1" ++ " not existed"))),
        freshWorld) :=
  ⟨by simp [freshWorld],
    (unknown_network_no_mutation exampleHost freshWorld "net1" (by simp [freshWorld])).1,
    (unknown_network_no_mutation exampleHost freshWorld "net1" (by simp [freshWorld])).2
      "80:8080" "0123456789"⟩

/-- C7 as stated fails. On a fresh process `CreateNetwork("net1", "bridge", "192.168.10.0/24")`
succeeds, yet `DeleteNetwork("net1")` right after it returns `network:net1 not existed` and
leaves the host as the create left it, the bridge device included. And in a process whose
registry holds `net1`, `DeleteNetwork("net1")` succeeds, releases the address, removes the
device and the record, and a second `DeleteNetwork("net1")` right after it returns nil, not a
not-found error. -/
theorem DeleteNetwork_after_CreateNetwork_counterexample :
    (CreateNetwork exampleHost "net1" "bridge" "192.168.10.0/24" freshWorld).1 =
      Outcome.returned none ∧
    (DeleteNetwork exampleHost "net1"
      (CreateNetwork exampleHost "net1" "bridge" "192.168.10.0/24" freshWorld).2).1 =
      Outcome.returned (some (GoError.errorsNew "network:net1 not existed")) ∧
    (DeleteNetwork exampleHost "net1"
      (CreateNetwork exampleHost "net1" "bridge" "192.168.10.0/24" freshWorld).2).2.host =
      (CreateNetwork exampleHost "net1" "bridge" "192.168.10.0/24" freshWorld).2.host ∧
    (DeleteNetwork exampleHost "net1"
      (CreateNetwork exampleHost "net1" "bridge" "192.168.10.0/24" freshWorld).2).2.host.devices =
      ["net1"] ∧
    (DeleteNetwork exampleHost "net1" loadedWorld).1 = Outcome.returned none ∧
    (DeleteNetwork exampleHost "net1" loadedWorld).2.host =
      { allocated := [], devices := [], dirs := ["/home/guohaonan/ghndocker/network"],
        files := [] } ∧
    (DeleteNetwork exampleHost "net1" (DeleteNetwork exampleHost "net1" loadedWorld).2).1 =
      Outcome.returned none := by
  decide

/-- C7, amended: `CreateNetwork` and `DeleteNetwork` read the registry `networkMapping` and
never change it. Hence, when the name is not a key of the registry, `DeleteNetwork(name)` right
after `CreateNetwork(name, driver, subnet)` returns `network:<name> not existed` and changes
nothing. When the name is a key whose network has an IP range, `DeleteNetwork(name)` calls
`Release` first, and so does a second `DeleteNetwork(name)` right after it; and when `Release`,
the driver lookup and the driver's `DeleteNetwork` succeed, `DeleteNetwork(name)` has called
them in that order and ends with `Network.Remove` of the persisted record, whose result it
returns. -/
theorem registry_read_only {σ : Type} (H : Host σ) (w : World σ)
    (networkName driverName subnet : String) :
    (CreateNetwork H networkName driverName subnet w).2.networkMapping = w.networkMapping ∧
    (DeleteNetwork H networkName w).2.networkMapping = w.networkMapping ∧
    ((∀ nw, (networkName, nw) ∉ w.networkMapping) →
      DeleteNetwork H networkName (CreateNetwork H networkName driverName subnet w).2 =
        (Outcome.returned
          (some (GoError.errorsNew ("network:" ++ networkName ++ " not existed"))),
         (CreateNetwork H networkName driverName subnet w).2)) ∧
    (∀ nw r, w.networkMapping.lookup networkName = some nw → nw.IPRange = some r →
      (∃ rest, (DeleteNetwork H networkName w).2.calls =
        w.calls ++ Call.release r r.IP :: rest) ∧
      (∃ rest, (DeleteNetwork H networkName (DeleteNetwork H networkName w).2).2.calls =
        (DeleteNetwork H networkName w).2.calls ++ Call.release r r.IP :: rest) ∧
      (∀ d, (H.release r r.IP w.host).1 = none → H.NetworkDrivers nw.Driver = some d →
        (d.DeleteNetwork nw (H.release r r.IP w.host).2).1 = none →
        DeleteNetwork H networkName w =
          (Outcome.returned
            (nw.Remove H ((w.call (Call.release r r.IP) (H.release r r.IP w.host).2).call
              (Call.driverDeleteNetwork nw.Driver nw)
              (d.DeleteNetwork nw (H.release r r.IP w.host).2).2)).1,
           (nw.Remove H ((w.call (Call.release r r.IP) (H.release r r.IP w.host).2).call
              (Call.driverDeleteNetwork nw.Driver nw)
              (d.DeleteNetwork nw (H.release r r.IP w.host).2).2)).2))) := by
  refine ⟨CreateNetwork_networkMapping H _ _ _ w, DeleteNetwork_networkMapping H _ w, ?_, ?_⟩
  · intro h
    have hl : (CreateNetwork H networkName driverName subnet w).2.networkMapping.lookup
        networkName = none := by
      rw [CreateNetwork_networkMapping]
      exact lookup_none_of_not_key _ _ h
    simp [DeleteNetwork, hl]
  · intro nw r h1 h2
    refine ⟨DeleteNetwork_calls_release H networkName w nw r h1 h2, ?_, ?_⟩
    · exact DeleteNetwork_calls_release H networkName _ nw r
        (by rw [DeleteNetwork_networkMapping]; exact h1) h2
    · intro d hr hd hdel
      simp only [World.call] at hdel ⊢
      simp [DeleteNetwork, h1, h2, hr, hd, hdel, World.call]

/-- Witness of `registry_read_only`: on a fresh process the delete after the create is
not-found; in a process whose registry holds `net1` the delete runs to `Network.Remove`. -/
theorem registry_read_only_witness :
    (∀ nw, ("net1", nw) ∉ freshWorld.networkMapping) ∧
    DeleteNetwork exampleHost "net1"
        (CreateNetwork exampleHost "net1" "bridge" "192.168.10.0/24" freshWorld).2 =
      (Outcome.returned (some (GoError.errorsNew ("network:" ++ "net1" ++ " not existed"))),
       (CreateNetwork exampleHost "net1" "bridge" "192.168.10.0/24" freshWorld).2) ∧
    loadedWorld.networkMapping.lookup "net1" = some net1 ∧
    (∃ rest, (DeleteNetwork exampleHost "net1"
        (DeleteNetwork exampleHost "net1" loadedWorld).2).2.calls =
      (DeleteNetwork exampleHost "net1" loadedWorld).2.calls ++
        Call.release
          { IP := [0, 0, 0, 0, 0, 0, 0, 0, 0, 0, 255, 255, 192, 168, 10, 1],
            Mask := [255, 255, 255, 0] }
          [0, 0, 0, 0, 0, 0, 0, 0, 0, 0, 255, 255, 192, 168, 10, 1] :: rest) :=
  ⟨by simp [freshWorld],
    (registry_read_only exampleHost freshWorld "net1" "bridge" "192.168.10.0/24").2.2.1
      (by simp [freshWorld]),
    by decide,
    ((registry_read_only exampleHost loadedWorld "net1" "bridge" "192.168.10.0/24").2.2.2
      net1
      { IP := [0, 0, 0, 0, 0, 0, 0, 0, 0, 0, 255, 255, 192, 168, 10, 1],
        Mask := [255, 255, 255, 0] } (by decide) rfl).2.1⟩

end network

namespace network

/-- C8 as stated fails. On a fresh process of the example host,
`CreateNetwork("net1", "vxlan", "192.168.10.0/24")` returns the unknown-driver error, and the
gateway address it allocated before looking the driver up is still allocated afterwards: the
allocator state is not the state before the call. -/
theorem CreateNetwork_error_keeps_address :
    (CreateNetwork exampleHost "net1" "vxlan" "192.168.10.0/24" freshWorld).1 =
      Outcome.returned (some (GoError.errorsNew "driver:vxlan doesn\x27t implement")) ∧
    freshWorld.host.allocated = [] ∧
    (CreateNetwork exampleHost "net1" "vxlan" "192.168.10.0/24" freshWorld).2.host.allocated =
      [([192, 168, 10], 1)] ∧
    (CreateNetwork exampleHost "net1" "vxlan" "192.168.10.0/24" freshWorld).2.calls =
      [Call.allocate (some { IP := [192, 168, 10, 0], Mask := [255, 255, 255, 0] })] := by
  decide

/-- C8, amended: a call of `CreateNetwork` or `Connect` that returns an error undoes nothing.
With an invalid subnet text `CreateNetwork` returns the parse error and the state is unchanged
(nothing was called). With an unknown driver name or a failing driver operation, after
`Allocate` succeeded, `CreateNetwork` and `Connect` return the error having called `Allocate`
and, when the driver is known, the failing driver operation, and nothing else: `Release` is not
called, no file is written (no network record is persisted), and the host state is the one
these calls left, so the address allocated during the call stays allocated. -/
theorem failed_call_undoes_nothing {σ : Type} (H : Host σ) (w : World σ)
    (networkName driverName subnet portMapping containerId : String) :
    (∀ err, H.parseCIDR subnet = Except.error err →
      CreateNetwork H networkName driverName subnet w = (Outcome.returned (some err), w)) ∧
    (∀ parsed gatewayIP, H.parseCIDR subnet = Except.ok parsed →
      (H.allocate (some parsed) w.host).1 = Except.ok gatewayIP →
      (H.NetworkDrivers driverName = none →
        CreateNetwork H networkName driverName subnet w =
          (Outcome.returned
            (some (GoError.errorsNew ("driver:" ++ driverName ++ " doesn\x27t implement"))),
           w.call (Call.allocate (some parsed)) (H.allocate (some parsed) w.host).2)) ∧
      (∀ d err, H.NetworkDrivers driverName = some d →
        (d.CreateNetwork { parsed with IP := gatewayIP } networkName
          (H.allocate (some parsed) w.host).2).1 = Except.error err →
        CreateNetwork H networkName driverName subnet w =
          (Outcome.returned (some err),
           (w.call (Call.allocate (some parsed)) (H.allocate (some parsed) w.host).2).call
             (Call.driverCreateNetwork driverName { parsed with IP := gatewayIP } networkName)
             (d.CreateNetwork { parsed with IP := gatewayIP } networkName
               (H.allocate (some parsed) w.host).2).2))) ∧
    (∀ nw ip, w.networkMapping.lookup networkName = some nw →
      (H.allocate nw.IPRange w.host).1 = Except.ok ip →
      (H.NetworkDrivers nw.Driver = none →
        Connect H networkName portMapping containerId w =
          (Outcome.returned (some (GoError.errorsNew ("driver:" ++ nw.Driver ++ " not init"))),
           w.call (Call.allocate nw.IPRange) (H.allocate nw.IPRange w.host).2)) ∧
      (∀ d err, H.NetworkDrivers nw.Driver = some d →
        (d.Connect nw
          { ID := containerId ++ "-" ++ networkName, IPAddress := ip, Network := nw,
            PortMapping := portMapping.splitOn ":" }
          (H.allocate nw.IPRange w.host).2).1 = some err →
        Connect H networkName portMapping containerId w =
          (Outcome.returned (some err),
           (w.call (Call.allocate nw.IPRange) (H.allocate nw.IPRange w.host).2).call
             (Call.driverConnect nw.Driver nw
               { ID := containerId ++ "-" ++ networkName, IPAddress := ip, Network := nw,
                 PortMapping := portMapping.splitOn ":" })
             (d.Connect nw
               { ID := containerId ++ "-" ++ networkName, IPAddress := ip, Network := nw,
                 PortMapping := portMapping.splitOn ":" }
               (H.allocate nw.IPRange w.host).2).2))) := by
  refine ⟨?_, ?_, ?_⟩
  · intro err h
    simp [CreateNetwork, h]
  · intro parsed gatewayIP hp ha
    refine ⟨?_, ?_⟩
    · intro hd
      simp [CreateNetwork, hp, ha, hd]
    · intro d err hd hc
      simp only [World.call] at hc ⊢
      simp [CreateNetwork, hp, ha, hd, hc, World.call]
  · intro nw ip hl ha
    refine ⟨?_, ?_⟩
    · intro hd
      simp [Connect, hl, ha, hd]
    · intro d err hd hc
      simp [Connect, hl, ha, hd, hc, World.call]

/-- Witness of `failed_call_undoes_nothing`: an invalid subnet text, and the unknown driver
`vxlan`, on a fresh process of the example host. -/
theorem failed_call_undoes_nothing_witness :
    CreateNetwork exampleHost "net1" "bridge" "192.168.10.0" freshWorld =
      (Outcome.returned (some (GoError.fromCallee ("invalid CIDR address: " ++ "192.168.10.0"))),
        freshWorld) ∧
    CreateNetwork exampleHost "net1" "vxlan" "192.168.10.0/24" freshWorld =
      (Outcome.returned
        (some (GoError.errorsNew ("driver:" ++ "vxlan" ++ " doesn\x27t implement"))),
       freshWorld.call
         (Call.allocate (some { IP := [192, 168, 10, 0], Mask := [255, 255, 255, 0] }))
         (exampleHost.allocate (some { IP := [192, 168, 10, 0], Mask := [255, 255, 255, 0] })
           freshWorld.host).2) :=
  ⟨(failed_call_undoes_nothing exampleHost freshWorld "net1" "bridge" "192.168.10.0" ""
      "").1 _ rfl,
    ((failed_call_undoes_nothing exampleHost freshWorld "net1" "vxlan" "192.168.10.0/24" ""
      "").2.1 { IP := [192, 168, 10, 0], Mask := [255, 255, 255, 0] } [192, 168, 10, 1]
      rfl rfl).1 rfl⟩

end network

namespace cmd

/-- C9, evaluated: the run command line `--memory 100m --cpuset 0-1 --cpushre 512 /bin/sh`
is accepted and yields `MemoryLimits = "100m"`, `CpuSet = "0-1"` and an empty `CpuShare`: the
action looks up `cpushare`, which is not declared, the declared flag being `cpushre`; and the
command line `--cpushare 512 /bin/sh` is refused as naming a flag that is not defined. -/
theorem runCommand_cpushare_never_read :
    (runContext [("memory", "100m"), ("cpuset", "0-1"), ("cpushre", "512")] ["/bin/sh"]).map
        (runCommandAction false) =
      Except.ok (ActionResult.runContainer false ["/bin/sh"]
        { MemoryLimits := "100m", CpuShare := "", CpuSet := "0-1" }) ∧
    runContext [("cpushare", "512")] ["/bin/sh"] =
      Except.error "flag provided but not defined: -cpushare" ∧
    "cpushare" ∉ runCommandFlags.map Flag.Name := by
  exact ⟨rfl, rfl, by decide⟩

end cmd

namespace slide_window

/-- C10, evaluated: for `s = "aab"` and `words = ["aa"]` index 0 is an index the contract asks
for (the window `s[0:2]` is `"aa"`), and `findSubstringV2` does not return: after matching the
window it evaluates `s[2:4]` on a string of length 3, a slice-bounds panic. -/
theorem findSubstringV2_slice_out_of_bounds :
    findSubstringV2 [97, 97, 98] [[97, 97]] = none ∧
    isConcatenationAt [97, 97, 98] [[97, 97]] 0 ∧
    slice [97, 97, 98] 2 4 = none := by
  refine ⟨by decide, ⟨[[97, 97]], List.Perm.refl _, by decide, by decide⟩, by decide⟩

end slide_window

namespace slide_window

/-! ## `findSubstring`: `int` arithmetic without wrap-around -/

theorem intHalf_pos (bits : Nat) : 0 < intHalf bits := by
  unfold intHalf
  positivity

theorem wrapInt_eq (bits : Nat) (x : Int) (h1 : -intHalf bits ≤ x) (h2 : x < intHalf bits) :
    wrapInt bits x = x := by
  unfold wrapInt
  rw [Int.emod_eq_of_lt (by omega) (by omega)]
  omega

theorem addInt_cast (bits : Nat) (a b : Nat) (h : ((a + b : Nat) : Int) < intHalf bits) :
    addInt bits a b = ((a + b : Nat) : Int) := by
  have := intHalf_pos bits
  unfold addInt
  rw [wrapInt_eq bits _ (by omega) (by omega)]
  omega

theorem mulInt_cast (bits : Nat) (a b : Nat) (h : ((a * b : Nat) : Int) < intHalf bits) :
    mulInt bits a b = ((a * b : Nat) : Int) := by
  have := intHalf_pos bits
  unfold mulInt
  have e : (a : Int) * (b : Int) = ((a * b : Nat) : Int) := by push_cast; rfl
  rw [e, wrapInt_eq bits _ (by omega) h]

theorem subInt_cast (bits : Nat) (a b : Nat) (hba : b ≤ a) (h : (a : Int) < intHalf bits) :
    subInt bits a b = ((a - b : Nat) : Int) := by
  have := intHalf_pos bits
  unfold subInt
  rw [wrapInt_eq bits _ (by omega) (by omega)]
  omega

theorem sliceInt_cast (s : Str) (lo hi : Nat) (h1 : lo ≤ hi) (h2 : hi ≤ s.length) :
    sliceInt s lo hi = some ((s.drop lo).take (hi - lo)) := by
  unfold sliceInt
  have hc : (0 : Int) ≤ (lo : Int) ∧ (lo : Int) ≤ (hi : Int) ∧ (hi : Int) ≤ (s.length : Int) := by
    omega
  simp only [hc, and_self, if_true, Int.toNat_ofNat]

theorem fits_iff (bits : Nat) (s : Str) (n w k : Nat)
    (h : ((k + n * w : Nat) : Int) < intHalf bits) :
    fits bits s n w k ↔ k + n * w ≤ s.length := by
  have hp := intHalf_pos bits
  have hm : ((n * w : Nat) : Int) < intHalf bits := by omega
  unfold fits
  rw [mulInt_cast bits n w hm, addInt_cast bits k (n * w) h]
  unfold subInt
  rw [wrapInt_eq bits _ (by omega) (by omega)]
  omega

/-! ## `findSubstring`: the map of differences -/

theorem get_nil (x : Str) : (Dict.get [] x).1 = 0 := rfl

theorem get_cons (k : Str) (v : Int) (rest : Dict) (x : Str) :
    (Dict.get ((k, v) :: rest) x).1 = if x = k then v else (Dict.get rest x).1 := by
  unfold Dict.get
  by_cases h : x = k
  · subst h
    simp
  · have hb : (x == k) = false := by simpa using h
    simp [List.lookup, hb, h]

theorem get_addWrap (bits : Nat) (d : Dict) (word : Str) (delta : Int) (x : Str) :
    ((d.addWrap bits word delta).get x).1 =
      if x = word then addInt bits (d.get x).1 delta else (d.get x).1 := by
  induction d with
  | nil =>
    simp only [Dict.addWrap, get_cons, get_nil]
  | cons e rest ih =>
    obtain ⟨k, v⟩ := e
    simp only [Dict.addWrap]
    by_cases hk : k = word
    · subst hk
      simp only [if_true, get_cons]
      split <;> rfl
    · simp only [hk, if_false, get_cons, ih]
      by_cases hx : x = k
      · have : x ≠ word := fun h => hk (hx ▸ h)
        simp [hx, hk]
      · simp [hx]

theorem get_addWrap_range (bits : Nat) (d : Dict) (word : Str) (delta : Int) (x : Str)
    (h1 : -intHalf bits ≤ (d.get word).1 + delta) (h2 : (d.get word).1 + delta < intHalf bits) :
    ((d.addWrap bits word delta).get x).1 = (d.get x).1 + if x = word then delta else 0 := by
  rw [get_addWrap]
  by_cases hx : x = word
  · subst hx
    simp only [if_true]
    exact wrapInt_eq bits _ h1 h2
  · simp [hx]

theorem get_delete (d : Dict) (word x : Str) :
    ((d.delete word).get x).1 = if x = word then 0 else (d.get x).1 := by
  induction d with
  | nil => simp [Dict.delete, get_nil]
  | cons e rest ih =>
    obtain ⟨k, v⟩ := e
    unfold Dict.delete at ih ⊢
    by_cases hk : k = word
    · subst hk
      simp only [List.filter, bne_self_eq_false, ih, get_cons]
      by_cases hx : x = k <;> simp [hx]
    · have hb : (k != word) = true := by simpa using hk
      simp only [List.filter, hb, get_cons, ih]
      by_cases hx : x = k
      · have : x ≠ word := fun h => hk (hx ▸ h)
        simp [hx, hk]
      · simp [hx]

theorem get_bump (bits : Nat) (d : Dict) (word : Str) (delta : Int) (x : Str)
    (h1 : -intHalf bits ≤ (d.get word).1 + delta) (h2 : (d.get word).1 + delta < intHalf bits) :
    ((d.bump bits word delta).get x).1 = (d.get x).1 + if x = word then delta else 0 := by
  unfold Dict.bump
  split
  · next h =>
    rw [get_delete]
    by_cases hx : x = word
    · subst hx
      rw [get_addWrap_range bits d x delta x h1 h2] at h
      simpa using h.symm
    · simp [hx, get_addWrap]
  · exact get_addWrap_range bits d word delta x h1 h2

theorem mem_addWrap (bits : Nat) (d : Dict) (word : Str) (delta : Int) (e : Str × Int)
    (h : e ∈ d.addWrap bits word delta) :
    e ∈ d ∨ (e.1 = word ∧ e.2 = ((d.addWrap bits word delta).get word).1) := by
  induction d with
  | nil =>
    simp only [Dict.addWrap, List.mem_singleton] at h
    subst h
    right
    simp [Dict.addWrap, get_cons]
  | cons f rest ih =>
    obtain ⟨k, v⟩ := f
    simp only [Dict.addWrap] at h ⊢
    by_cases hk : k = word
    · subst hk
      simp only [if_true, List.mem_cons] at h ⊢
      rcases h with h | h
      · right
        subst h
        simp [get_cons]
      · left; right; exact h
    · simp only [hk, if_false, List.mem_cons] at h ⊢
      rcases h with h | h
      · left; left; exact h
      · rcases ih h with h1 | ⟨h1, h2⟩
        · left; right; exact h1
        · right
          refine ⟨h1, ?_⟩
          rw [h2, get_cons]
          have : word ≠ k := fun h => hk h.symm
          simp [this]

theorem noZero_bump (bits : Nat) (d : Dict) (word : Str) (delta : Int) (h : NoZero d) :
    NoZero (d.bump bits word delta) := by
  unfold Dict.bump
  split
  · next hz =>
    intro e he
    unfold Dict.delete at he
    rw [List.mem_filter] at he
    obtain ⟨he1, he2⟩ := he
    have hne : e.1 ≠ word := by simpa using he2
    rcases mem_addWrap bits d word delta e he1 with h1 | ⟨h1, _⟩
    · exact h e h1
    · exact absurd h1 hne
  · next hz =>
    intro e he
    rcases mem_addWrap bits d word delta e he with h1 | ⟨_, h2⟩
    · exact h e h1
    · rw [h2]; exact hz

theorem length_eq_zero_iff (d : Dict) (h : NoZero d) :
    d.length = 0 ↔ ∀ x, (d.get x).1 = 0 := by
  constructor
  · intro hl x
    have : d = [] := List.length_eq_zero.mp hl
    subst this
    rfl
  · intro hx
    cases d with
    | nil => rfl
    | cons e rest =>
      obtain ⟨k, v⟩ := e
      have h1 := hx k
      rw [get_cons] at h1
      simp only [if_true] at h1
      exact absurd h1 (h (k, v) (List.mem_cons_self _ _))

theorem allPos_get_nonneg (d : Dict) (h : AllPos d) (x : Str) : 0 ≤ (d.get x).1 := by
  induction d with
  | nil => simp [get_nil]
  | cons e rest ih =>
    obtain ⟨k, v⟩ := e
    rw [get_cons]
    split
    · exact le_of_lt (h (k, v) (List.mem_cons_self _ _))
    · exact ih (fun e he => h e (List.mem_cons_of_mem _ he))

theorem allPos_addWrap_one (bits : Nat) (d : Dict) (word : Str) (h : AllPos d)
    (hr : (d.get word).1 + 1 < intHalf bits) : AllPos (d.addWrap bits word 1) := by
  have hp := intHalf_pos bits
  have hnn := allPos_get_nonneg d h word
  intro e he
  rcases mem_addWrap bits d word 1 e he with h1 | ⟨_, h2⟩
  · exact h e h1
  · rw [h2, get_addWrap_range bits d word 1 word (by omega) hr]
    simp
    omega

theorem allPos_noZero (d : Dict) (h : AllPos d) : NoZero d :=
  fun e he => ne_of_gt (h e he)

theorem addInt_one (bits : Nat) (a : Nat) (h : ((a + 1 : Nat) : Int) < intHalf bits) :
    addInt bits a 1 = ((a + 1 : Nat) : Int) :=
  addInt_cast bits a 1 h

theorem subInt_one (bits : Nat) (a : Nat) (ha : 1 ≤ a) (h : (a : Int) < intHalf bits) :
    subInt bits a 1 = ((a - 1 : Nat) : Int) :=
  subInt_cast bits a 1 ha h

theorem length_blocks (s : Str) (w : Nat) : ∀ n j : Nat, (blocks s w n j).length = n := by
  intro n
  induction n with
  | zero => intro j; rfl
  | succ n ih => intro j; simp [blocks, ih]

theorem count_blocks_le (s : Str) (w n j : Nat) (x : Str) : (blocks s w n j).count x ≤ n := by
  have := List.count_le_length x (blocks s w n j)
  rw [length_blocks] at this
  exact this

theorem blocks_snoc (s : Str) (w n j : Nat) :
    blocks s w (n + 1) j = blocks s w n j ++ [block s w (j + n * w)] := by
  induction n generalizing j with
  | zero => simp [blocks]
  | succ n ih =>
    rw [blocks, ih (j + w), blocks]
    have : j + w + n * w = j + (n + 1) * w := by rw [Nat.succ_mul]; omega
    rw [this]
    rfl

theorem count_blocks_shift (s : Str) (w n j : Nat) (x : Str) :
    ((blocks s w n (j + w)).count x : Int) =
      (blocks s w n j).count x + (if x = block s w (j + n * w) then 1 else 0) -
        (if x = block s w j then 1 else 0) := by
  have h1 : blocks s w (n + 1) j = block s w j :: blocks s w n (j + w) := rfl
  have h2 := blocks_snoc s w n j
  have h3 : (blocks s w (n + 1) j).count x =
      (blocks s w n (j + w)).count x + (if x = block s w j then 1 else 0) := by
    rw [h1, List.count_cons]
    by_cases hx : x = block s w j
    · simp [hx]
    · have : ¬ block s w j = x := fun h => hx h.symm
      simp [hx, this]
  have h4 : (blocks s w (n + 1) j).count x =
      (blocks s w n j).count x + (if x = block s w (j + n * w) then 1 else 0) := by
    rw [h2, List.count_append, List.count_cons]
    by_cases hx : x = block s w (j + n * w)
    · simp [hx]
    · have : ¬ block s w (j + n * w) = x := fun h => hx h.symm
      simp [hx, this]
  have h5 := h3.symm.trans h4
  have h6 : ((blocks s w n (j + w)).count x : Int) + (if x = block s w j then 1 else 0) =
      (blocks s w n j).count x + (if x = block s w (j + n * w) then 1 else 0) := by
    exact_mod_cast h5
  omega

theorem windowLoop_spec (bits : Nat) (s : Str) (num w i : Nat) (hw : 1 ≤ w)
    (hfit : i + num * w ≤ s.length) (hH : ((s.length + 1 : Nat) : Int) < intHalf bits) :
    ∀ (fuel j : Nat) (d : Dict), j ≤ num → num ≤ j + fuel → AllPos d →
      (∀ x, (d.get x).1 ≤ j) →
      ∃ d1, windowLoop bits s num w i fuel ((j + 1 : Nat) : Int) d = Result.value d1 ∧
        (∀ x, (d1.get x).1 = (d.get x).1 + ((blocks s w (num - j) (i + j * w)).count x : Int)) ∧
        AllPos d1 := by
  have hnum : num ≤ num * w := Nat.le_mul_of_pos_right num hw
  intro fuel
  induction fuel with
  | zero =>
    intro j d h1 h2 hpos _
    have hj : j = num := by omega
    subst hj
    refine ⟨d, ?_, ?_, hpos⟩
    · unfold windowLoop
      have : ¬ (((j + 1 : Nat) : Int) ≤ (j : Int)) := by omega
      simp only [this, if_false]
    · intro x
      simp [blocks]
  | succ fuel ih =>
    intro j d h1 h2 hpos hle
    by_cases hj : j = num
    · subst hj
      refine ⟨d, ?_, ?_, hpos⟩
      · unfold windowLoop
        have : ¬ (((j + 1 : Nat) : Int) ≤ (j : Int)) := by omega
        simp only [this, if_false]
      · intro x
        simp [blocks]
    · have hlt : j + 1 ≤ num := by omega
      have hcond : ((j + 1 : Nat) : Int) ≤ (num : Int) := by omega
      have hmul : (j + 1) * w ≤ num * w := Nat.mul_le_mul_right w hlt
      have hmul0 : j * w ≤ (j + 1) * w := Nat.mul_le_mul_right w (Nat.le_succ j)
      have hsm : (j + 1) * w = j * w + w := Nat.succ_mul j w
      have e1 : subInt bits ((j + 1 : Nat) : Int) 1 = (j : Int) := by
        rw [subInt_one bits (j + 1) (by omega) (by omega)]
        simp
      have e2 : mulInt bits (j : Int) (w : Int) = ((j * w : Nat) : Int) :=
        mulInt_cast bits j w (by omega)
      have e3 : mulInt bits ((j + 1 : Nat) : Int) (w : Int) = (((j + 1) * w : Nat) : Int) :=
        mulInt_cast bits (j + 1) w (by omega)
      have e4 : addInt bits (i : Int) ((j * w : Nat) : Int) = ((i + j * w : Nat) : Int) :=
        addInt_cast bits i (j * w) (by omega)
      have e5 : addInt bits (i : Int) (((j + 1) * w : Nat) : Int) =
          ((i + (j + 1) * w : Nat) : Int) :=
        addInt_cast bits i ((j + 1) * w) (by omega)
      have e6 : addInt bits ((j + 1 : Nat) : Int) 1 = ((j + 1 + 1 : Nat) : Int) :=
        addInt_one bits (j + 1) (by omega)
      have hsl : sliceInt s ((i + j * w : Nat) : Int) ((i + (j + 1) * w : Nat) : Int) =
          some (block s w (i + j * w)) := by
        rw [sliceInt_cast s _ _ (by omega) (by omega)]
        simp only [block]
        congr 2
        omega
      have hword := hle (block s w (i + j * w))
      have hnn := allPos_get_nonneg d hpos (block s w (i + j * w))
      have hp := intHalf_pos bits
      have hr1 : -intHalf bits ≤ (d.get (block s w (i + j * w))).1 + 1 := by omega
      have hr2 : (d.get (block s w (i + j * w))).1 + 1 < intHalf bits := by omega
      obtain ⟨d1, hd1, hc, hp1⟩ := ih (j + 1) (d.addWrap bits (block s w (i + j * w)) 1) hlt
        (by omega) (allPos_addWrap_one bits d _ hpos hr2)
        (by
          intro x
          rw [get_addWrap_range bits d _ 1 x hr1 hr2]
          have := hle x
          split <;> push_cast <;> omega)
      refine ⟨d1, ?_, ?_, hp1⟩
      · rw [windowLoop]
        simp only [hcond, if_true, e1, e2, e3, e4, e5, e6, hsl]
        exact hd1
      · intro x
        rw [hc x, get_addWrap_range bits d _ 1 x hr1 hr2]
        have hn : num - j = (num - (j + 1)) + 1 := by omega
        rw [hn, blocks, List.count_cons, hsm]
        have hi : i + j * w + w = i + (j * w + w) := by omega
        rw [hi]
        by_cases hx : x = block s w (i + j * w)
        · simp [hx]; omega
        · have : ¬ block s w (i + j * w) = x := fun h => hx h.symm
          simp [hx, this]

theorem wordsLoop_spec (bits : Nat) (words : List Str) :
    ∀ (d : Dict) (c : Nat), NoZero d →
      (∀ x, -(c : Int) ≤ (d.get x).1 ∧ (d.get x).1 < intHalf bits) →
      ((c + words.length : Nat) : Int) ≤ intHalf bits →
      NoZero (wordsLoop bits words d) ∧
        ∀ x, ((wordsLoop bits words d).get x).1 = (d.get x).1 - (words.count x : Int) := by
  induction words with
  | nil =>
    intro d c h _ _
    exact ⟨h, fun x => by simp [wordsLoop]⟩
  | cons a rest ih =>
    intro d c h hb hc
    simp only [List.length_cons] at hc
    have ha := hb a
    have hr1 : -intHalf bits ≤ (d.get a).1 + (-1) := by omega
    have hr2 : (d.get a).1 + (-1) < intHalf bits := by omega
    have h1 := noZero_bump bits d a (-1) h
    obtain ⟨h2, h3⟩ := ih (d.bump bits a (-1)) (c + 1) h1
      (by
        intro x
        rw [get_bump bits d a (-1) x hr1 hr2]
        have := hb x
        split <;> push_cast <;> omega)
      (by omega)
    have he : wordsLoop bits (a :: rest) d = wordsLoop bits rest (d.bump bits a (-1)) := rfl
    rw [he]
    refine ⟨h2, fun x => ?_⟩
    rw [h3 x, get_bump bits d a (-1) x hr1 hr2, List.count_cons]
    by_cases hx : x = a
    · simp [hx]; omega
    · have : ¬ a = x := fun h => hx h.symm
      simp [hx, this]

theorem represents_length (s : Str) (words : List Str) (w n : Nat) (d : Dict) (k : Nat)
    (h : Represents s words w n d k) : d.length = 0 ↔ Matches s words w n k := by
  rw [length_eq_zero_iff d h.1]
  unfold Matches
  constructor
  · intro hx x
    have := hx x
    rw [h.2 x] at this
    omega
  · intro hx x
    rw [h.2 x, hx x]
    omega

theorem slideStep_spec (bits : Nat) (s : Str) (words : List Str) (num w start : Nat)
    (d : Dict) (hn : 1 ≤ num) (hws : w ≤ start) (hfit : start + num * w ≤ s.length)
    (hwn : words.length = num) (hnH : ((num + 1 : Nat) : Int) < intHalf bits)
    (hH : ((s.length + 1 : Nat) : Int) < intHalf bits)
    (hrep : Represents s words w num d (start - w)) :
    ∃ d1, slideStep bits s num w start d = some d1 ∧ Represents s words w num d1 start := by
  have hp := intHalf_pos bits
  obtain ⟨n, rfl⟩ : ∃ n, num = n + 1 := ⟨num - 1, by omega⟩
  have hsm : (n + 1) * w = n * w + w := Nat.succ_mul n w
  have e1 : subInt bits ((n + 1 : Nat) : Int) 1 = (n : Int) := by
    rw [subInt_one bits (n + 1) (by omega) (by omega)]
    simp
  have e2 : mulInt bits (n : Int) (w : Int) = ((n * w : Nat) : Int) :=
    mulInt_cast bits n w (by omega)
  have e3 : mulInt bits ((n + 1 : Nat) : Int) (w : Int) = (((n + 1) * w : Nat) : Int) :=
    mulInt_cast bits (n + 1) w (by omega)
  have e4 : addInt bits (start : Int) ((n * w : Nat) : Int) = ((start + n * w : Nat) : Int) :=
    addInt_cast bits start (n * w) (by omega)
  have e5 : addInt bits (start : Int) (((n + 1) * w : Nat) : Int) =
      ((start + (n + 1) * w : Nat) : Int) :=
    addInt_cast bits start ((n + 1) * w) (by omega)
  have e6 : subInt bits (start : Int) (w : Int) = ((start - w : Nat) : Int) :=
    subInt_cast bits start w hws (by omega)
  have hr : sliceInt s ((start + n * w : Nat) : Int) ((start + (n + 1) * w : Nat) : Int) =
      some (block s w (start + n * w)) := by
    rw [sliceInt_cast s _ _ (by omega) hfit]
    simp only [block]
    congr 2
    omega
  have hl : sliceInt s ((start - w : Nat) : Int) (start : Int) =
      some (block s w (start - w)) := by
    rw [sliceInt_cast s _ _ (by omega) (by omega)]
    simp only [block]
    congr 2
    omega
  have hb1 : ∀ x, -((n + 1 : Nat) : Int) ≤ (d.get x).1 ∧ (d.get x).1 ≤ ((n + 1 : Nat) : Int) := by
    intro x
    rw [hrep.2 x]
    have c1 := count_blocks_le s w (n + 1) (start - w) x
    have c2 := List.count_le_length x words
    omega
  have hR := hb1 (block s w (start + n * w))
  have hr1 : -intHalf bits ≤ (d.get (block s w (start + n * w))).1 + 1 := by omega
  have hr2 : (d.get (block s w (start + n * w))).1 + 1 < intHalf bits := by omega
  have hget1 := fun x => get_bump bits d (block s w (start + n * w)) 1 x hr1 hr2
  have hL := hget1 (block s w (start - w))
  have hL0 := hb1 (block s w (start - w))
  have hl1 : -intHalf bits ≤
      ((d.bump bits (block s w (start + n * w)) 1).get (block s w (start - w))).1 + (-1) := by
    rw [hL]
    split <;> omega
  have hl2 : ((d.bump bits (block s w (start + n * w)) 1).get (block s w (start - w))).1 + (-1) <
      intHalf bits := by
    rw [hL]
    split <;> omega
  refine ⟨(d.bump bits (block s w (start + n * w)) 1).bump bits (block s w (start - w)) (-1),
    ?_, ?_, ?_⟩
  · unfold slideStep
    simp only [e1, e2, e3, e4, e5, e6, hr, hl]
  · exact noZero_bump _ _ _ _ (noZero_bump _ _ _ _ hrep.1)
  · intro x
    rw [get_bump bits _ _ (-1) x hl1 hl2, hget1 x, hrep.2 x]
    have hsh := count_blocks_shift s w (n + 1) (start - w) x
    have a1 : start - w + w = start := by omega
    have a2 : start - w + (n + 1) * w = start + n * w := by omega
    rw [a1, a2] at hsh
    rw [hsh]
    clear hsh hr hl hrep hget1 hL hl1 hl2 hb1 hR hL0 hr1 hr2
    split_ifs <;> omega

theorem slideLoop_spec (bits : Nat) (s : Str) (words : List Str) (num w i : Nat) (hw : 1 ≤ w)
    (hn : 1 ≤ num) (hwn : words.length = num)
    (hH : ((s.length + w : Nat) : Int) < intHalf bits) :
    ∀ (fuel m : Nat) (d : Dict) (res : List Nat),
      s.length ≤ i + m * w + fuel →
      i + m * w + num * w ≤ s.length + w →
      (m = 0 → Represents s words w num d i) →
      (m ≠ 0 → Represents s words w num d (i + m * w - w)) →
      ∃ new : List Nat,
        slideLoop bits s num w i fuel ((i + m * w : Nat) : Int) d
            (res.map (fun k : Nat => (k : Int))) =
          Result.value ((res ++ new).map (fun k : Nat => (k : Int))) ∧
        new.Nodup ∧
        ∀ k, k ∈ new ↔
          ∃ m1, m ≤ m1 ∧ k = i + m1 * w ∧ k + num * w ≤ s.length ∧ Matches s words w num k := by
  have hp := intHalf_pos bits
  have hnw : 1 ≤ num * w := Nat.mul_pos hn hw
  have hnum : num ≤ num * w := Nat.le_mul_of_pos_right num hw
  have hwle : w ≤ num * w := Nat.le_mul_of_pos_left w hn
  intro fuel
  induction fuel with
  | zero =>
    intro m d res hfuel hb _ _
    have hnf : ¬ fits bits s num w ((i + m * w : Nat) : Int) := by
      rw [fits_iff bits s num w (i + m * w) (by omega)]
      omega
    refine ⟨[], ?_, List.nodup_nil, ?_⟩
    · rw [slideLoop, if_neg hnf, List.append_nil]
    · intro k
      simp only [List.not_mem_nil, false_iff, not_exists, not_and]
      intro m1 hm1 hk hfit
      have := Nat.mul_le_mul_right w hm1
      omega
  | succ fuel ih =>
    intro m d res hfuel hb h0 h1
    have hfi := fits_iff bits s num w (i + m * w) (by omega)
    by_cases hf : fits bits s num w ((i + m * w : Nat) : Int)
    · have hfit : i + m * w + num * w ≤ s.length := hfi.mp hf
      have hd1 : ∃ d1, (if ((i + m * w : Nat) : Int) ≠ (i : Int)
          then slideStep bits s num w ((i + m * w : Nat) : Int) d else some d) = some d1 ∧
          Represents s words w num d1 (i + m * w) := by
        by_cases hm : m = 0
        · subst hm
          refine ⟨d, by simp, ?_⟩
          simpa using h0 rfl
        · have hmw : w ≤ m * w := Nat.le_mul_of_pos_left w (Nat.pos_of_ne_zero hm)
          have hne : ((i + m * w : Nat) : Int) ≠ (i : Int) := by omega
          simp only [hne, ne_eq, not_false_eq_true, if_true]
          exact slideStep_spec bits s words num w (i + m * w) d hn (by omega) hfit hwn
            (by omega) (by omega) (h1 hm)
      obtain ⟨d1, hd1e, hrep⟩ := hd1
      have hsm : (m + 1) * w = m * w + w := Nat.succ_mul m w
      have hstart : addInt bits ((i + m * w : Nat) : Int) (w : Int) =
          ((i + (m + 1) * w : Nat) : Int) := by
        rw [addInt_cast bits (i + m * w) w (by omega)]
        congr 1
        omega
      have hlen := represents_length s words w num d1 (i + m * w) hrep
      have hres : (if d1.length = 0
          then res.map (fun k : Nat => (k : Int)) ++ [((i + m * w : Nat) : Int)]
          else res.map (fun k : Nat => (k : Int))) =
          (if d1.length = 0 then res ++ [i + m * w] else res).map
            (fun k : Nat => (k : Int)) := by
        split <;> simp
      obtain ⟨new1, hrun, hnd, hmem⟩ := ih (m + 1) d1
        (if d1.length = 0 then res ++ [i + m * w] else res) (by omega) (by omega)
        (fun h => absurd h (Nat.succ_ne_zero m))
        (fun _ => by
          have : i + (m + 1) * w - w = i + m * w := by omega
          rw [this]; exact hrep)
      have hgt : ∀ k ∈ new1, i + m * w < k := by
        intro k hk
        obtain ⟨m1, hm1, hk1, _⟩ := (hmem k).mp hk
        have := Nat.mul_le_mul_right w hm1
        omega
      refine ⟨(if d1.length = 0 then [i + m * w] else []) ++ new1, ?_, ?_, ?_⟩
      · rw [slideLoop]
        simp only [hf, if_true, hd1e, hstart, hres, hrun]
        split <;> simp
      · split
        · simp only [List.singleton_append, List.nodup_cons]
          exact ⟨fun hk => absurd (hgt _ hk) (lt_irrefl _), hnd⟩
        · simpa using hnd
      · intro k
        rw [List.mem_append, hmem k]
        constructor
        · rintro (hk | ⟨m1, hm1, hk1, hk2, hk3⟩)
          · split at hk
            · next hz =>
              have hk' : k = i + m * w := by simpa using hk
              subst hk'
              exact ⟨m, le_refl m, rfl, hfit, hlen.mp hz⟩
            · simp at hk
          · exact ⟨m1, by omega, hk1, hk2, hk3⟩
        · rintro ⟨m1, hm1, hk1, hk2, hk3⟩
          by_cases he : m1 = m
          · subst he
            subst hk1
            left
            have hz : d1.length = 0 := hlen.mpr hk3
            simp [hz]
          · right
            exact ⟨m1, by omega, hk1, hk2, hk3⟩
    · refine ⟨[], ?_, List.nodup_nil, ?_⟩
      · rw [slideLoop, if_neg hf, List.append_nil]
      · intro k
        simp only [List.not_mem_nil, false_iff, not_exists, not_and]
        intro m1 hm1 hk hfit
        have := Nat.mul_le_mul_right w hm1
        rw [hfi] at hf
        omega

theorem splitLoop_spec (bits : Nat) (s : Str) (words : List Str) (num w : Nat) (hw : 1 ≤ w)
    (hn : 1 ≤ num) (hwn : words.length = num)
    (hH : ((s.length + w : Nat) : Int) < intHalf bits) :
    ∀ (fuel i : Nat) (res : List Nat),
      w ≤ i + fuel → ((i + num * w : Nat) : Int) < intHalf bits → res.Nodup →
      (∀ k ∈ res, k % w < i) →
      ∃ res1 : List Nat,
        splitLoop bits s words num w fuel (i : Int) (res.map (fun k : Nat => (k : Int))) =
          Result.value (res1.map (fun k : Nat => (k : Int))) ∧
        res1.Nodup ∧
        ∀ k, k ∈ res1 ↔
          k ∈ res ∨ (i ≤ k % w ∧ k + num * w ≤ s.length ∧ Matches s words w num k) := by
  have hp := intHalf_pos bits
  have hnum : num ≤ num * w := Nat.le_mul_of_pos_right num hw
  intro fuel
  induction fuel with
  | zero =>
    intro i res hfuel _ hnd _
    have hnt : ¬ ((i : Int) < (w : Int) ∧ fits bits s num w i) := fun h => by omega
    refine ⟨res, ?_, hnd, ?_⟩
    · rw [splitLoop, if_neg hnt]
    · intro k
      have := Nat.mod_lt k (show 0 < w by omega)
      constructor
      · exact fun h => Or.inl h
      · rintro (h | ⟨h, _⟩)
        · exact h
        · omega
  | succ fuel ih =>
    intro i res hfuel hiH hnd hres
    have hfi := fits_iff bits s num w i hiH
    by_cases ht : (i : Int) < (w : Int) ∧ fits bits s num w i
    · obtain ⟨hiw', hf⟩ := ht
      have hiw : i < w := by omega
      have hfit : i + num * w ≤ s.length := hfi.mp hf
      obtain ⟨d1, hwin, hcnt, hd1⟩ := windowLoop_spec bits s num w i hw hfit (by omega) num 0 []
        (Nat.zero_le _) (by omega) (fun e he => by simp at he)
        (fun x => by simp [get_nil])
      have h01 : ((0 + 1 : Nat) : Int) = 1 := rfl
      rw [h01] at hwin
      simp only [Nat.sub_zero, Nat.zero_mul, Nat.add_zero, get_nil, Int.zero_add] at hcnt
      obtain ⟨hnz, hwc⟩ := wordsLoop_spec bits words d1 0 (allPos_noZero d1 hd1)
        (fun x => by
          have h1 := allPos_get_nonneg d1 hd1 x
          have h2 := count_blocks_le s w num i x
          rw [hcnt x]
          constructor
          · simp
          · omega)
        (by omega)
      have hrep : Represents s words w num (wordsLoop bits words d1) i :=
        ⟨hnz, fun x => by rw [hwc x, hcnt x]⟩
      obtain ⟨new, hrun, hnew, hmem⟩ := slideLoop_spec bits s words num w i hw hn hwn hH
        s.length 0 (wordsLoop bits words d1) res (by omega) (by omega) (fun _ => hrep)
        (fun h => absurd rfl h)
      simp only [Nat.zero_mul, Nat.add_zero] at hrun
      have hmod : ∀ k ∈ new, k % w = i := by
        intro k hk
        obtain ⟨m1, _, hk1, _⟩ := (hmem k).mp hk
        rw [hk1, Nat.add_mul_mod_self_right, Nat.mod_eq_of_lt hiw]
      have hnext : addInt bits (i : Int) 1 = ((i + 1 : Nat) : Int) :=
        addInt_one bits i (by omega)
      obtain ⟨res1, hrest, hnd1, hmem1⟩ := ih (i + 1) (res ++ new) (by omega) (by omega)
        (by
          rw [List.nodup_append]
          refine ⟨hnd, hnew, ?_⟩
          intro k hk1 hk2
          have := hres k hk1
          have := hmod k hk2
          omega)
        (by
          intro k hk
          rcases List.mem_append.mp hk with h | h
          · have := hres k h
            omega
          · have := hmod k h
            omega)
      refine ⟨res1, ?_, hnd1, ?_⟩
      · rw [splitLoop]
        simp only [hiw', hf, and_self, if_true, hwn, hwin, hrun, hnext]
        exact hrest
      · intro k
        rw [hmem1 k, List.mem_append, hmem k]
        constructor
        · rintro ((h | ⟨m1, _, hk1, hk2, hk3⟩) | ⟨h1, h2, h3⟩)
          · exact Or.inl h
          · right
            refine ⟨?_, hk2, hk3⟩
            rw [hk1, Nat.add_mul_mod_self_right, Nat.mod_eq_of_lt hiw]
          · exact Or.inr ⟨by omega, h2, h3⟩
        · rintro (h | ⟨h1, h2, h3⟩)
          · exact Or.inl (Or.inl h)
          · by_cases he : k % w = i
            · left; right
              refine ⟨k / w, Nat.zero_le _, ?_, h2, h3⟩
              have := Nat.mod_add_div k w
              rw [Nat.mul_comm] at this
              omega
            · right
              exact ⟨by omega, h2, h3⟩
    · refine ⟨res, ?_, hnd, ?_⟩
      · rw [splitLoop, if_neg ht]
      · intro k
        have hlt := Nat.mod_lt k (show 0 < w by omega)
        have hle := Nat.mod_le k w
        constructor
        · exact fun h => Or.inl h
        · rintro (h | ⟨h1, h2, _⟩)
          · exact h
          · exfalso
            apply ht
            refine ⟨by omega, ?_⟩
            rw [hfi]
            omega

theorem flatten_blocks (s : Str) (w : Nat) :
    ∀ n j : Nat, (blocks s w n j).flatten = (s.drop j).take (n * w) := by
  intro n
  induction n with
  | zero => intro j; simp [blocks]
  | succ n ih =>
    intro j
    rw [blocks, List.flatten_cons, ih (j + w), block]
    have : (n + 1) * w = w + n * w := by rw [Nat.succ_mul]; omega
    rw [this, List.take_add, List.drop_drop]

theorem blocks_of_flatten (s : Str) (w : Nat) :
    ∀ (p : List Str) (j : Nat), (∀ x ∈ p, x.length = w) →
      (s.drop j).take (p.length * w) = p.flatten → blocks s w p.length j = p := by
  intro p
  induction p with
  | nil => intro j _ _; rfl
  | cons a rest ih =>
    intro j hlen h
    have ha : a.length = w := hlen a (List.mem_cons_self _ _)
    have hmul : (rest.length + 1) * w = w + rest.length * w := by rw [Nat.succ_mul]; omega
    simp only [List.length_cons, List.flatten_cons] at h ⊢
    rw [hmul] at h
    have h1 : block s w j = a := by
      have := congrArg (List.take w) h
      rw [List.take_take, List.take_left' ha] at this
      rw [← this, block]
      congr 1
      omega
    have h2 : (s.drop (j + w)).take (rest.length * w) = rest.flatten := by
      have := congrArg (List.drop w) h
      rw [List.drop_take, List.drop_left' ha, List.drop_drop] at this
      rw [← this]
      congr 1
      omega
    rw [blocks, h1, ih (j + w) (fun x hx => hlen x (List.mem_cons_of_mem _ hx)) h2]

theorem isConcatenationAt_iff (s : Str) (words : List Str) (w : Nat) (hne : words ≠ [])
    (hlen : ∀ x ∈ words, x.length = w) (k : Nat) :
    isConcatenationAt s words k ↔
      k + words.length * w ≤ s.length ∧ (blocks s w words.length k).Perm words := by
  have hhead : (words.headD []).length = w := by
    cases words with
    | nil => exact absurd rfl hne
    | cons a rest => exact hlen a (List.mem_cons_self _ _)
  unfold isConcatenationAt
  rw [hhead]
  constructor
  · rintro ⟨p, hp, hflat, hfit⟩
    refine ⟨hfit, ?_⟩
    have hpl : ∀ x ∈ p, x.length = w := fun x hx => hlen x (hp.mem_iff.mp hx)
    have := blocks_of_flatten s w p k hpl (by rw [hp.length_eq]; exact hflat)
    rw [hp.length_eq] at this
    rw [this]
    exact hp
  · rintro ⟨hfit, hp⟩
    exact ⟨blocks s w words.length k, hp, (flatten_blocks s w words.length k).symm, hfit⟩

theorem count_inst (l : List Str) (x : Str) :
    l.count x = @List.count Str instBEqOfDecidableEq x l := by
  have hp : (fun b : Str => @BEq.beq Str List.instBEq b x) =
      (fun b => @BEq.beq Str instBEqOfDecidableEq b x) := by
    funext b
    by_cases h : b = x
    · subst h
      simp
    · have h1 : @BEq.beq Str List.instBEq b x = false := by simpa using h
      have h2 : @BEq.beq Str instBEqOfDecidableEq b x = false := by simpa using h
      rw [h1, h2]
  unfold List.count
  rw [hp]

theorem matches_iff_perm (s : Str) (words : List Str) (w n k : Nat) :
    Matches s words w n k ↔ (blocks s w n k).Perm words := by
  unfold Matches
  rw [List.perm_iff_count]
  constructor
  · intro h x
    rw [← count_inst, ← count_inst]
    exact h x
  · intro h x
    rw [count_inst, count_inst]
    exact h x

theorem windowLoop_panic (bits : Nat) (s : Str) (num w i : Int) (fuel : Nat) (j : Int)
    (d : Dict) (hj : j ≤ num)
    (hs : sliceInt s (addInt bits i (mulInt bits (subInt bits j 1) w))
      (addInt bits i (mulInt bits j w)) = none) :
    windowLoop bits s num w i (fuel + 1) j d = Result.panic := by
  rw [windowLoop, if_pos hj]
  simp only [hs]

theorem findSubstring_panic_of_wrap (bits : Nat) (s : Str) (n w a : Nat) (hn : 0 < n)
    (hw : 0 < w) (hwH : (w : Int) < intHalf bits) (hfit : fits bits s n w 0)
    (hlen : s.length < w) :
    findSubstring bits s (List.replicate n (List.replicate w a)) = Result.panic := by
  have hp := intHalf_pos bits
  obtain ⟨n1, rfl⟩ : ∃ n1, n = n1 + 1 := ⟨n - 1, by omega⟩
  obtain ⟨w1, rfl⟩ : ∃ w1, w = w1 + 1 := ⟨w - 1, by omega⟩
  have hhi : addInt bits 0 (mulInt bits 1 ((w1 + 1 : Nat) : Int)) = ((w1 + 1 : Nat) : Int) := by
    unfold addInt mulInt
    rw [Int.one_mul, wrapInt_eq bits _ (by omega) hwH, Int.zero_add,
      wrapInt_eq bits _ (by omega) hwH]
  have hsl : ∀ lo : Int, sliceInt s lo ((w1 + 1 : Nat) : Int) = none := by
    intro lo
    unfold sliceInt
    have : ¬ (0 ≤ lo ∧ lo ≤ ((w1 + 1 : Nat) : Int) ∧ ((w1 + 1 : Nat) : Int) ≤ (s.length : Int)) := by
      omega
    rw [if_neg this]
  have hc1 : (0 : Int) < ((w1 + 1 : Nat) : Int) ∧
      fits bits s ((n1 + 1 : Nat) : Int) ((w1 + 1 : Nat) : Int) 0 := ⟨by omega, hfit⟩
  have hc2 : (1 : Int) ≤ ((n1 + 1 : Nat) : Int) := by omega
  rw [List.replicate_succ]
  simp only [findSubstring, List.length_cons, List.length_replicate]
  rw [splitLoop, if_pos hc1]
  simp only [List.length_cons, List.length_replicate]
  rw [windowLoop_panic bits s _ _ _ n1 1 [] hc2 (by rw [hhi]; exact hsl _)]

/-- C11 as stated fails: the indices are `int`s, and the product
`num_of_words*word_length` wraps around. For `s = "abc"` and 65536 words of 32769 bytes each
with a 32-bit `int`, and for 4294967296 words of 2147483649 bytes each with a 64-bit `int`,
the product is negative, the loop condition holds although `s` is shorter than one word, and
the first slice expression `s[0:word_length]` is out of bounds: `findSubstring` panics. -/
theorem findSubstring_overflow_panics :
    (List.replicate 65536 (List.replicate 32769 97) ≠ [] ∧
      ∀ x ∈ List.replicate 65536 (List.replicate 32769 97), x.length = 32769) ∧
    mulInt 32 65536 32769 = -2147418112 ∧
    findSubstring 32 [97, 98, 99] (List.replicate 65536 (List.replicate 32769 97)) =
      Result.panic ∧
    mulInt 64 4294967296 2147483649 = -9223372032559808512 ∧
    findSubstring 64 [97, 98, 99] (List.replicate 4294967296 (List.replicate 2147483649 97)) =
      Result.panic := by
  refine ⟨⟨?_, ?_⟩, by decide, ?_, by decide, ?_⟩
  · intro h
    have := congrArg List.length h
    rw [List.length_replicate, List.length_nil] at this
    omega
  · intro x hx
    rw [List.eq_of_mem_replicate hx, List.length_replicate]
  · exact findSubstring_panic_of_wrap 32 [97, 98, 99] 65536 32769 97 (by decide) (by decide)
      (by decide) (by decide) (by decide)
  · exact findSubstring_panic_of_wrap 64 [97, 98, 99] 4294967296 2147483649 97 (by decide)
      (by decide) (by decide) (by decide) (by decide)

/-- C11, amended: for an `int` of `bits` bits, for every string `s` and every non-empty list
`words` of strings of one common length `w >= 1`, with `n = len(words)`, such that neither the
product `n*w` nor the sum `len(s) + w` overflows `int` (both are below `2^(bits-1)`):
`findSubstring(s, words)` returns (no slice expression is out of bounds), no index occurs
twice in the result, and an index `k` occurs in it if and only if `k + n*w <= len(s)` and
`s[k : k+n*w]` is the concatenation of some permutation of `words`, that is, if and only if
the `n` consecutive blocks of `w` bytes from `k` on are a permutation of `words`. -/
theorem findSubstring_correct (bits : Nat) (s : Str) (words : List Str) (w : Nat)
    (hne : words ≠ []) (hlen : ∀ x ∈ words, x.length = w) (hw : 1 ≤ w)
    (hmul : words.length * w < 2 ^ (bits - 1)) (hsum : s.length + w < 2 ^ (bits - 1)) :
    ∃ res : List Nat,
      findSubstring bits s words = Result.value (res.map (fun k : Nat => (k : Int))) ∧
      (res.map (fun k : Nat => (k : Int))).Nodup ∧
      ∀ k, (k ∈ res ↔ isConcatenationAt s words k) ∧
        (k ∈ res ↔
          k + words.length * w ≤ s.length ∧ (blocks s w words.length k).Perm words) := by
  have hmulI : ((words.length * w : Nat) : Int) < intHalf bits := by
    unfold intHalf
    exact_mod_cast hmul
  have hsumI : ((s.length + w : Nat) : Int) < intHalf bits := by
    unfold intHalf
    exact_mod_cast hsum
  cases words with
  | nil => exact absurd rfl hne
  | cons a rest =>
    have ha : a.length = w := hlen a (List.mem_cons_self _ _)
    obtain ⟨res, hrun, hnd, hmem⟩ := splitLoop_spec bits s (a :: rest) (a :: rest).length w hw
      (by simp) rfl hsumI w 0 [] (by omega) (by simpa using hmulI) List.nodup_nil
      (fun k hk => by simp at hk)
    have hk : ∀ k, k ∈ res ↔
        k + (a :: rest).length * w ≤ s.length ∧
          (blocks s w (a :: rest).length k).Perm (a :: rest) := by
      intro k
      rw [hmem k, ← matches_iff_perm]
      simp only [List.not_mem_nil, false_or, Nat.zero_le, true_and]
    refine ⟨res, ?_, ?_, fun k => ⟨?_, hk k⟩⟩
    · simp only [findSubstring, ha]
      exact hrun
    · exact hnd.map (fun x y h => by exact_mod_cast h)
    · rw [hk k, isConcatenationAt_iff s (a :: rest) w hne hlen k]

/-- Witness of `findSubstring_correct`: `s = "barfoobar"`, `words = ["foo", "bar"]`, with a
64-bit `int`. -/
theorem findSubstring_correct_witness :
    findSubstring 64 [98, 97, 114, 102, 111, 111, 98, 97, 114]
        [[102, 111, 111], [98, 97, 114]] = Result.value [0, 3] ∧
    ∃ res : List Nat,
      findSubstring 64 [98, 97, 114, 102, 111, 111, 98, 97, 114]
          [[102, 111, 111], [98, 97, 114]] =
        Result.value (res.map (fun k : Nat => (k : Int))) ∧
      (res.map (fun k : Nat => (k : Int))).Nodup ∧
      ∀ k, (k ∈ res ↔
          isConcatenationAt [98, 97, 114, 102, 111, 111, 98, 97, 114]
            [[102, 111, 111], [98, 97, 114]] k) ∧
        (k ∈ res ↔
          k + [[102, 111, 111], [98, 97, 114]].length * 3 ≤
              [98, 97, 114, 102, 111, 111, 98, 97, 114].length ∧
            (blocks [98, 97, 114, 102, 111, 111, 98, 97, 114] 3
              [[102, 111, 111], [98, 97, 114]].length k).Perm
              [[102, 111, 111], [98, 97, 114]]) :=
  ⟨by decide,
    findSubstring_correct 64 [98, 97, 114, 102, 111, 111, 98, 97, 114]
      [[102, 111, 111], [98, 97, 114]] 3 (by decide) (by decide) (by decide) (by decide)
      (by decide)⟩

end slide_window

namespace classic

/-! ## `removeElement` and `removeElement2` -/

theorem getD_set_self (h : Heap) (i : Nat) (a : List Int) (hi : i < h.length) :
    (h.set i a).getD i [] = a := by
  simp [List.getD, hi]

theorem getD_append_left (h : Heap) (i : Nat) (a : List Int) (hi : i < h.length) :
    (h ++ [a]).getD i [] = h.getD i [] := by
  simp [List.getD, List.getElem?_append_left hi]

theorem getD_append_new (h : Heap) (a : List Int) : (h ++ [a]).getD h.length [] = a := by
  rw [List.getD_eq_getElem?_getD, List.getElem?_append_right (le_refl _)]
  simp

theorem drop_take_mid (X Y Z : List Int) (n m : Nat) (hn : n = X.length) (hm : m = Y.length) :
    ((X ++ Y ++ Z).drop n).take m = Y := by
  subst hn hm
  rw [List.append_assoc, List.drop_left, List.take_left]

theorem getD_mid (X : List Int) (y : Int) (Z : List Int) (n : Nat) (hn : n = X.length) :
    (X ++ y :: Z).getD n 0 = y := by
  subst hn
  rw [List.getD_eq_getElem?_getD, List.getElem?_append_right (le_refl _)]
  simp

theorem writeAt_mid (X Y Z xs : List Int) (n : Nat) (hn : n = X.length)
    (hl : xs.length = Y.length) : writeAt (X ++ Y ++ Z) n xs = X ++ xs ++ Z := by
  subst hn
  have h1 : (X ++ Y ++ Z).take X.length = X := by rw [List.append_assoc, List.take_left]
  have h2 : (X ++ Y ++ Z).drop (X.length + xs.length) = Z := by
    rw [hl, ← List.length_append, List.drop_left]
  unfold writeAt
  rw [h1, h2]

theorem set_mid (X : List Int) (y : Int) (Z : List Int) (n : Nat) (x : Int)
    (hn : n = X.length) : (X ++ y :: Z).set n x = X ++ x :: Z := by
  subst hn
  simp

theorem append_temp (grow : Nat → Nat) (h : Heap) (a c : Nat) (P K U R Z : List Int) (x : Int)
    (ha : a < h.length)
    (hA : h.getD a [] = P ++ (K ++ x :: (U ++ R)) ++ Z)
    (hz : c ≤ K.length + (U.length + 1) + R.length + Z.length) :
    ∃ Z1, a < (append grow h
        { arr := a, off := P.length + (K.length + 1), len := U.length + R.length,
          cap := c - (K.length + 1) } [x]).1.length ∧
      (append grow h
        { arr := a, off := P.length + (K.length + 1), len := U.length + R.length,
          cap := c - (K.length + 1) } [x]).1.getD a [] = P ++ (K ++ x :: (U ++ R)) ++ Z1 ∧
      Z1.length = Z.length ∧
      (append grow h
        { arr := a, off := P.length + (K.length + 1), len := U.length + R.length,
          cap := c - (K.length + 1) } [x]).2.elems
        (append grow h
          { arr := a, off := P.length + (K.length + 1), len := U.length + R.length,
            cap := c - (K.length + 1) } [x]).1 = U ++ R ++ [x] := by
  have hel : Slice.elems h
      { arr := a, off := P.length + (K.length + 1), len := U.length + R.length,
        cap := c - (K.length + 1) } = U ++ R := by
    unfold Slice.elems
    simp only [hA]
    have : P ++ (K ++ x :: (U ++ R)) ++ Z = (P ++ K ++ [x]) ++ (U ++ R) ++ Z := by simp
    rw [this]
    exact drop_take_mid _ _ _ _ _ (by simp) (by simp)
  by_cases hcap : U.length + R.length + 1 ≤ c - (K.length + 1)
  · have hZ : Z ≠ [] := by
      intro h0
      subst h0
      simp at hz
      omega
    obtain ⟨z, Z2, rfl⟩ := List.exists_cons_of_ne_nil hZ
    refine ⟨x :: Z2, ?_, ?_, by simp, ?_⟩
    · simp [append, hcap]
      exact ha
    · simp only [append, List.length_singleton, hcap, if_true]
      rw [getD_set_self h a _ ha, hA]
      have e1 : P ++ (K ++ x :: (U ++ R)) ++ z :: Z2 =
          (P ++ (K ++ x :: (U ++ R))) ++ [z] ++ Z2 := by simp
      rw [e1, writeAt_mid _ [z] _ [x] _ (by simp; omega) (by simp)]
      simp
    · simp only [append, List.length_singleton, hcap, if_true]
      unfold Slice.elems
      simp only []
      rw [getD_set_self h a _ ha, hA]
      have e1 : P ++ (K ++ x :: (U ++ R)) ++ z :: Z2 =
          (P ++ (K ++ x :: (U ++ R))) ++ [z] ++ Z2 := by simp
      rw [e1, writeAt_mid _ [z] _ [x] _ (by simp; omega) (by simp)]
      have e2 : P ++ (K ++ x :: (U ++ R)) ++ [x] ++ Z2 =
          (P ++ K ++ [x]) ++ (U ++ R ++ [x]) ++ Z2 := by simp
      rw [e2]
      exact drop_take_mid _ _ _ _ _ (by simp) (by simp; omega)
  · refine ⟨Z, ?_, ?_, rfl, ?_⟩
    · simp only [append, List.length_singleton, hcap, if_false, List.length_append]
      omega
    · simp only [append, List.length_singleton, hcap, if_false]
      rw [getD_append_left h a _ ha, hA]
    · simp only [append, List.length_singleton, hcap, if_false]
      unfold Slice.elems at hel ⊢
      simp only [] at hel ⊢
      rw [hel, getD_append_new, List.drop_zero, List.take_left' (by simp; omega)]

theorem append_front (grow : Nat → Nat) (h : Heap) (a c n : Nat) (P K Y Z E : List Int)
    (ha : a < h.length)
    (hA : h.getD a [] = P ++ (K ++ Y) ++ Z)
    (hE : E.length = Y.length) (hn : K.length + Y.length = n) (hc : n ≤ c) :
    (append grow h { arr := a, off := P.length, len := K.length, cap := c } E).2 =
      { arr := a, off := P.length, len := n, cap := c } ∧
    a < (append grow h { arr := a, off := P.length, len := K.length, cap := c } E).1.length ∧
    (append grow h { arr := a, off := P.length, len := K.length, cap := c } E).1.getD a [] =
      P ++ (K ++ E) ++ Z := by
  have hfit : K.length + E.length ≤ c := by omega
  simp only [append, hfit, if_true]
  refine ⟨by rw [hE, hn], by simpa using ha, ?_⟩
  rw [getD_set_self h a _ ha, hA]
  have e1 : P ++ (K ++ Y) ++ Z = (P ++ K) ++ Y ++ Z := by simp
  rw [e1, writeAt_mid _ Y _ E _ (by simp) hE]
  simp

theorem removeElementLoop_spec (grow : Nat → Nat) (val : Int) (a c n : Nat) (P : List Int) :
    ∀ (U : List Int) (h : Heap) (K R Z : List Int),
      a < h.length →
      h.getD a [] = P ++ (K ++ (U ++ R)) ++ Z →
      K.length + U.length + R.length = n → n ≤ c → c ≤ n + Z.length →
      ∃ h1 R1 Z1,
        removeElementLoop grow val U.length h
            { arr := a, off := P.length, len := n, cap := c } K.length =
          some (K.length + (U.filter (fun y => y != val)).length, h1) ∧
        a < h1.length ∧
        h1.getD a [] = P ++ (K ++ (U.filter (fun y => y != val) ++ R1)) ++ Z1 ∧
        K.length + (U.filter (fun y => y != val)).length + R1.length = n := by
  intro U
  induction U with
  | nil =>
    intro h K R Z ha hA hn _ _
    exact ⟨h, R, Z, rfl, ha, by simpa using hA, by simpa using hn⟩
  | cons x U ih =>
    intro h K R Z ha hA hn hc hz
    simp only [List.length_cons] at hn
    have hidx : Slice.index h { arr := a, off := P.length, len := n, cap := c } K.length =
        some x := by
      have hlt : K.length < n := by omega
      simp only [Slice.index, hlt, if_true, hA]
      have e : P ++ (K ++ (x :: U ++ R)) ++ Z = (P ++ K) ++ x :: (U ++ R ++ Z) := by simp
      rw [e, getD_mid _ _ _ _ (by simp)]
    by_cases hx : x = val
    · have hfrom : Slice.sliceFrom { arr := a, off := P.length, len := n, cap := c }
          (K.length + 1) =
          some { arr := a, off := P.length + (K.length + 1), len := U.length + R.length,
                 cap := c - (K.length + 1) } := by
        have hle : K.length + 1 ≤ n := by omega
        have hlen : n - (K.length + 1) = U.length + R.length := by omega
        simp only [Slice.sliceFrom, hle, if_true, hlen]
      have hto : Slice.sliceTo { arr := a, off := P.length, len := n, cap := c } K.length =
          some { arr := a, off := P.length, len := K.length, cap := c } := by
        have hle : K.length ≤ c := by omega
        simp only [Slice.sliceTo, hle, if_true]
      have hA1 : h.getD a [] = P ++ (K ++ x :: (U ++ R)) ++ Z := by simpa using hA
      obtain ⟨Z1, ha1, hA2, hZ1, hel⟩ := append_temp grow h a c P K U R Z x ha hA1 (by omega)
      obtain ⟨hs, ha2, hA3⟩ := append_front grow _ a c n P K (x :: (U ++ R)) Z1
        (U ++ R ++ [x]) ha1 hA2 (by simp only [List.length_append, List.length_cons, List.length_nil])
        (by simp only [List.length_append, List.length_cons]; omega) hc
      rw [← hel] at hs ha2 hA3
      obtain ⟨h3, R3, Z3, hrun, ha3, hA4, hn3⟩ := ih _ K (R ++ [x]) Z1 ha2
        (by rw [hA3, hel]; simp) (by simp; omega) hc (by omega)
      refine ⟨h3, R3, Z3, ?_, ha3, ?_, ?_⟩
      · rw [List.length_cons, removeElementLoop]
        simp only [hidx, hx, ne_eq, not_true_eq_false, if_false, hfrom, hto]
        rw [← hx, hs]
        rw [hx] at hrun ⊢
        have hf : (val :: U).filter (fun y => y != val) = U.filter (fun y => y != val) := by
          simp
        rw [hf]
        exact hrun
      · have hf : (x :: U).filter (fun y => y != val) = U.filter (fun y => y != val) := by
          simp [hx]
        rw [hf]
        exact hA4
      · have hf : (x :: U).filter (fun y => y != val) = U.filter (fun y => y != val) := by
          simp [hx]
        rw [hf]
        exact hn3
    · have hf : (x :: U).filter (fun y => y != val) = x :: U.filter (fun y => y != val) := by
        simp [hx]
      obtain ⟨h3, R3, Z3, hrun, ha3, hA4, hn3⟩ := ih h (K ++ [x]) R Z ha
        (by rw [hA]; simp) (by simp; omega) hc hz
      refine ⟨h3, R3, Z3, ?_, ha3, ?_, ?_⟩
      · rw [List.length_cons, removeElementLoop]
        simp only [hidx, hx, ne_eq, not_false_eq_true, if_true, hf, List.length_cons]
        simp only [List.length_append, List.length_singleton] at hrun
        rw [hrun]
        simp only [Option.some.injEq, Prod.mk.injEq, and_true]
        omega
      · rw [hf, hA4]
        simp
      · rw [hf]
        simp only [List.length_append, List.length_cons, List.length_nil] at hn3 ⊢
        omega

theorem removeElement2Loop_spec (val : Int) (a c n : Nat) (P : List Int) :
    ∀ (U : List Int) (h : Heap) (K M Z : List Int),
      a < h.length →
      h.getD a [] = P ++ (K ++ (M ++ U)) ++ Z →
      K.length + M.length + U.length = n →
      ∃ h1 M1,
        removeElement2Loop val U.length h
            { arr := a, off := P.length, len := n, cap := c } (K.length + M.length) K.length =
          some (K.length + (U.filter (fun y => y != val)).length, h1) ∧
        a < h1.length ∧
        h1.getD a [] = P ++ (K ++ (U.filter (fun y => y != val) ++ M1)) ++ Z ∧
        K.length + (U.filter (fun y => y != val)).length + M1.length = n := by
  intro U
  induction U with
  | nil =>
    intro h K M Z ha hA hn
    exact ⟨h, M, rfl, ha, by simpa using hA, by simpa using hn⟩
  | cons x U ih =>
    intro h K M Z ha hA hn
    simp only [List.length_cons] at hn
    have hidx : Slice.index h { arr := a, off := P.length, len := n, cap := c }
        (K.length + M.length) = some x := by
      have hlt : K.length + M.length < n := by omega
      simp only [Slice.index, hlt, if_true, hA]
      have e : P ++ (K ++ (M ++ x :: U)) ++ Z = (P ++ K ++ M) ++ x :: (U ++ Z) := by simp
      rw [e, getD_mid _ _ _ _ (by simp)]
    by_cases hx : x = val
    · subst hx
      have hf : (x :: U).filter (fun y => y != x) = U.filter (fun y => y != x) := by
        simp
      have hlen1 : K.length + (M ++ [x]).length + U.length = n := by
        simp only [List.length_append, List.length_cons, List.length_nil]
        omega
      obtain ⟨h3, M3, hrun, ha3, hA3, hn3⟩ := ih h K (M ++ [x]) Z ha (by rw [hA]; simp) hlen1
      refine ⟨h3, M3, ?_, ha3, by rw [hf]; exact hA3, by rw [hf]; exact hn3⟩
      rw [List.length_cons, removeElement2Loop]
      simp only [hidx, ne_eq, not_true_eq_false, if_false]
      rw [hf, ← hrun]
      simp only [List.length_append, List.length_cons, List.length_nil]
      rfl
    · have hf : (x :: U).filter (fun y => y != val) = x :: U.filter (fun y => y != val) := by
        simp [hx]
      have hM : ∃ M1 : List Int, M1.length = M.length ∧
          (P ++ (K ++ (M ++ x :: U)) ++ Z).set (P.length + K.length) x =
            P ++ ((K ++ [x]) ++ (M1 ++ U)) ++ Z := by
        cases M with
        | nil =>
          refine ⟨[], rfl, ?_⟩
          have e : P ++ (K ++ ([] ++ x :: U)) ++ Z = (P ++ K) ++ x :: (U ++ Z) := by simp
          rw [e, set_mid _ _ _ _ _ (by simp)]
          simp
        | cons m M0 =>
          refine ⟨M0 ++ [x], by simp, ?_⟩
          have e : P ++ (K ++ (m :: M0 ++ x :: U)) ++ Z =
              (P ++ K) ++ m :: (M0 ++ x :: U ++ Z) := by simp
          rw [e, set_mid _ _ _ _ _ (by simp)]
          simp
      obtain ⟨M1, hM1, hset⟩ := hM
      have hasg : Slice.assign h { arr := a, off := P.length, len := n, cap := c } K.length x =
          some (h.set a (P ++ ((K ++ [x]) ++ (M1 ++ U)) ++ Z)) := by
        have hlt : K.length < n := by omega
        simp only [Slice.assign, hlt, if_true, hA, hset]
      have hlen1 : (K ++ [x]).length + M1.length + U.length = n := by
        simp only [List.length_append, List.length_cons, List.length_nil]
        omega
      obtain ⟨h3, M3, hrun, ha3, hA3, hn3⟩ := ih (h.set a (P ++ ((K ++ [x]) ++ (M1 ++ U)) ++ Z))
        (K ++ [x]) M1 Z (by simpa using ha) (getD_set_self h a _ ha) hlen1
      refine ⟨h3, M3, ?_, ha3, ?_, ?_⟩
      · rw [List.length_cons, removeElement2Loop]
        simp only [hidx, hx, ne_eq, not_false_eq_true, if_true, hasg, hf, List.length_cons]
        simp only [List.length_append, List.length_cons, List.length_nil, hM1] at hrun
        have e1 : K.length + M.length + 1 = K.length + (0 + 1) + M.length := by omega
        rw [e1, hrun]
        simp only [Option.some.injEq, Prod.mk.injEq, and_true]
        omega
      · rw [hf, hA3]
        simp
      · rw [hf]
        simp only [List.length_append, List.length_cons, List.length_nil] at hn3 ⊢
        omega

theorem valid_split (h : Heap) (nums : Slice) (hv : nums.Valid h) :
    ∃ P Z : List Int, h.getD nums.arr [] = P ++ nums.elems h ++ Z ∧ P.length = nums.off ∧
      (nums.elems h).length = nums.len ∧ nums.cap ≤ nums.len + Z.length := by
  obtain ⟨_, h2, h3⟩ := hv
  refine ⟨(h.getD nums.arr []).take nums.off, (h.getD nums.arr []).drop (nums.off + nums.len),
    ?_, ?_, ?_, ?_⟩
  · unfold Slice.elems
    rw [List.append_assoc, ← List.drop_drop,
      List.take_append_drop nums.len ((h.getD nums.arr []).drop nums.off),
      List.take_append_drop]
  · rw [List.length_take]
    omega
  · unfold Slice.elems
    rw [List.length_take, List.length_drop]
    omega
  · rw [List.length_drop]
    omega

/-- C12: for every integer slice `nums` (a window of an array of the heap, of any capacity)
and every `val`, `removeElement` and `removeElement2` both return, without an index or slice
bound out of range, the number `k` of elements of `nums` different from `val`, and after
either call the first `k` positions of the caller's slice hold the elements of the original
`nums` that differ from `val`, in their original order. -/
theorem removeElement_removeElement2_agree (grow : Nat → Nat) (h : Heap) (nums : Slice)
    (val : Int) (hv : nums.Valid h) :
    ∃ h1 h2,
      removeElement grow h nums val =
        some (((nums.elems h).filter (fun y => y != val)).length, h1) ∧
      removeElement2 h nums val =
        some (((nums.elems h).filter (fun y => y != val)).length, h2) ∧
      (nums.elems h1).take ((nums.elems h).filter (fun y => y != val)).length =
        (nums.elems h).filter (fun y => y != val) ∧
      (nums.elems h2).take ((nums.elems h).filter (fun y => y != val)).length =
        (nums.elems h).filter (fun y => y != val) := by
  obtain ⟨P, Z, hA, hP, hE, hZ⟩ := valid_split h nums hv
  obtain ⟨ha, hc, _⟩ := hv
  obtain ⟨a, off, n, c⟩ := nums
  simp only at hA hP hE hZ ha hc
  subst hP
  generalize Slice.elems h { arr := a, off := P.length, len := n, cap := c } = E at hA hE ⊢
  subst hE
  obtain ⟨h1, R1, Z1, hrun1, _, hA1, hn1⟩ := removeElementLoop_spec grow val a c E.length P E h
    [] [] Z ha (by rw [hA]; simp) (by simp) hc hZ
  obtain ⟨h2, M2, hrun2, _, hA2, hn2⟩ := removeElement2Loop_spec val a c E.length P E h
    [] [] Z ha (by rw [hA]; simp) (by simp)
  simp only [List.length_nil, Nat.zero_add, List.nil_append] at hrun1 hrun2 hA1 hA2 hn1 hn2
  refine ⟨h1, h2, hrun1, hrun2, ?_, ?_⟩
  · unfold Slice.elems
    simp only [hA1]
    rw [drop_take_mid P _ Z1 _ _ rfl (by rw [List.length_append]; exact hn1.symm)]
    exact List.take_left _ _
  · unfold Slice.elems
    simp only [hA2]
    rw [drop_take_mid P _ Z _ _ rfl (by rw [List.length_append]; exact hn2.symm)]
    exact List.take_left _ _

/-- Witness of `removeElement_removeElement2_agree`: `nums = [3, 2, 2, 3]` as the window
`a[1:5]` with capacity 6 of the array `a = [9, 3, 2, 2, 3, 7, 8, 9]`, and `val = 3`. -/
theorem removeElement_removeElement2_agree_witness :
    removeElement (fun _ => 0) [[9, 3, 2, 2, 3, 7, 8, 9]]
        { arr := 0, off := 1, len := 4, cap := 6 } 3 =
      some (2, [[9, 2, 2, 3, 3, 3, 8, 9]]) ∧
    removeElement2 [[9, 3, 2, 2, 3, 7, 8, 9]] { arr := 0, off := 1, len := 4, cap := 6 } 3 =
      some (2, [[9, 2, 2, 2, 3, 7, 8, 9]]) ∧
    ∃ h1 h2,
      removeElement (fun _ => 0) [[9, 3, 2, 2, 3, 7, 8, 9]]
          { arr := 0, off := 1, len := 4, cap := 6 } 3 =
        some (((Slice.elems [[9, 3, 2, 2, 3, 7, 8, 9]]
          { arr := 0, off := 1, len := 4, cap := 6 }).filter (fun y => y != 3)).length, h1) ∧
      removeElement2 [[9, 3, 2, 2, 3, 7, 8, 9]] { arr := 0, off := 1, len := 4, cap := 6 } 3 =
        some (((Slice.elems [[9, 3, 2, 2, 3, 7, 8, 9]]
          { arr := 0, off := 1, len := 4, cap := 6 }).filter (fun y => y != 3)).length, h2) ∧
      (Slice.elems h1 { arr := 0, off := 1, len := 4, cap := 6 }).take
          ((Slice.elems [[9, 3, 2, 2, 3, 7, 8, 9]]
            { arr := 0, off := 1, len := 4, cap := 6 }).filter (fun y => y != 3)).length =
        (Slice.elems [[9, 3, 2, 2, 3, 7, 8, 9]]
          { arr := 0, off := 1, len := 4, cap := 6 }).filter (fun y => y != 3) ∧
      (Slice.elems h2 { arr := 0, off := 1, len := 4, cap := 6 }).take
          ((Slice.elems [[9, 3, 2, 2, 3, 7, 8, 9]]
            { arr := 0, off := 1, len := 4, cap := 6 }).filter (fun y => y != 3)).length =
        (Slice.elems [[9, 3, 2, 2, 3, 7, 8, 9]]
          { arr := 0, off := 1, len := 4, cap := 6 }).filter (fun y => y != 3) :=
  ⟨by decide, by decide,
    removeElement_removeElement2_agree (fun _ => 0) [[9, 3, 2, 2, 3, 7, 8, 9]]
      { arr := 0, off := 1, len := 4, cap := 6 } 3 ⟨by decide, by decide, by decide⟩⟩

end classic
